import Mathlib

/-!
# A verification development of the Eta rollup plugin

Source: `src/build/rollup-plugins/eta/index.js`.

The plugin's `transform` hook parses a template with the Eta frontend, collects
the partials it references with two regular expressions, filters them through
the per-plugin set `registeredPartials`, and synthesises a module text.

JavaScript strings are embedded as `String`, scanned as `List Char`.
The regular expressions are embedded as values of a small regex type that is
run by a backtracking matcher with JavaScript's priorities (greedy
quantifiers, ordered alternation, leftmost start).  The external collaborators
(`createFilter`, Eta's `parse`/`compile`, Node's `path.resolve`, the platform)
are parameters, gathered in `Host`.
-/

namespace EtaPlugin

/-! ## Regular expressions -/

/-- The characters the regex atom `.` refuses (ECMAScript LineTerminator). -/
def isLineTerminator (c : Char) : Bool :=
  c = '\n' || c = '\r' || c = '\u2028' || c = '\u2029'

/-- Capture slots of a match: slot `i` is `matches[i]`, `none` is `undefined`. -/
abbrev Captures := Nat → Option (List Char)

/-- Write capture slot `i`. -/
def Captures.set (caps : Captures) (i : Nat) (v : List Char) : Captures :=
  fun j => if j = i then some v else caps j

/-- The regex fragment needed by the two patterns of the source. -/
inductive Regex where
  /-- a literal character -/
  | char (c : Char)
  /-- `^` (no `m` flag: start of input) -/
  | bos
  /-- `$` (no `m` flag: end of input) -/
  | eos
  /-- `.*`, greedy -/
  | dotStar
  /-- `.+`, greedy -/
  | dotPlus
  /-- concatenation -/
  | seq (a b : Regex)
  /-- ordered alternation `a|b` -/
  | alt (a b : Regex)
  /-- `a?`, greedy -/
  | opt (a : Regex)
  /-- capture group number `i` -/
  | group (i : Nat) (a : Regex)

/-- Greedy scan of `.*`: consume as many non-terminator characters as possible,
then give characters back one at a time until the continuation succeeds. -/
def dotStarK {α : Type} (k : Nat → List Char → Option α) : Nat → List Char → Option α
  | pos, [] => k pos []
  | pos, c :: cs =>
    if isLineTerminator c then k pos (c :: cs)
    else
      match dotStarK k (pos + 1) cs with
      | some r => some r
      | none => k pos (c :: cs)

/-- Backtracking matcher in continuation-passing style.  `pos` is the index of
the next character, `s` the rest of the input. -/
def Regex.run : Regex → Nat → List Char → Captures →
    (Nat → List Char → Captures → Option Captures) → Option Captures
  | .char c, pos, s, caps, k =>
    match s with
    | [] => none
    | d :: ds => if d = c then k (pos + 1) ds caps else none
  | .bos, pos, s, caps, k => if pos = 0 then k pos s caps else none
  | .eos, pos, s, caps, k =>
    match s with
    | [] => k pos [] caps
    | _ :: _ => none
  | .dotStar, pos, s, caps, k => dotStarK (fun p r => k p r caps) pos s
  | .dotPlus, pos, s, caps, k =>
    match s with
    | [] => none
    | c :: cs =>
      if isLineTerminator c then none
      else dotStarK (fun p r => k p r caps) (pos + 1) cs
  | .seq a b, pos, s, caps, k =>
    a.run pos s caps (fun p r cs => b.run p r cs k)
  | .alt a b, pos, s, caps, k =>
    match a.run pos s caps k with
    | some r => some r
    | none => b.run pos s caps k
  | .opt a, pos, s, caps, k =>
    match a.run pos s caps k with
    | some r => some r
    | none => k pos s caps
  | .group i a, pos, s, caps, k =>
    a.run pos s caps (fun p r cs => k p r (cs.set i (s.take (p - pos))))

/-- A literal string as a regex, followed by `rest`. -/
def Regex.lit : List Char → Regex → Regex
  | [], rest => rest
  | c :: cs, rest => .seq (.char c) (Regex.lit cs rest)

/-- Whether the regex has a capture group numbered `i`. -/
def Regex.hasGroup (i : Nat) : Regex → Bool
  | .char _ => false
  | .bos => false
  | .eos => false
  | .dotStar => false
  | .dotPlus => false
  | .seq a b => a.hasGroup i || b.hasGroup i
  | .alt a b => a.hasGroup i || b.hasGroup i
  | .opt a => a.hasGroup i
  | .group j a => j == i || a.hasGroup i

/-- Whether every match of the regex has to read a character that satisfies `q`. -/
def Regex.mustRead (q : Char → Bool) : Regex → Bool
  | .char c => q c
  | .bos => false
  | .eos => false
  | .dotStar => false
  | .dotPlus => false
  | .seq a b => a.mustRead q || b.mustRead q
  | .alt a b => a.mustRead q && b.mustRead q
  | .opt _ => false
  | .group _ a => a.mustRead q

/-- A quote character: `'` or `"`. -/
def isQuote (c : Char) : Bool := c = '\'' || c = '"'

/-- Try to match at the current start index, then at each later one
(`RegExp.prototype.exec` without the `g` and `y` flags). -/
def Regex.execFrom (re : Regex) : Nat → List Char → Option Captures
  | pos, [] =>
    re.run pos [] (fun _ => none) (fun _ _ cs => some (cs.set 0 []))
  | pos, c :: cs =>
    match re.run pos (c :: cs) (fun _ => none)
        (fun p _ caps => some (caps.set 0 ((c :: cs).take (p - pos)))) with
    | some r => some r
    | none => Regex.execFrom re (pos + 1) cs

/-- The method `String.prototype.match` with a non-global regex. -/
def jsMatch (val : String) (re : Regex) : Option Captures :=
  re.execFrom 0 val.data

/-- The pattern `/E\.include\('(.*)'\)/`. -/
def includeRegex : Regex :=
  Regex.lit "E.include('".data
    (.seq (.group 1 .dotStar) (.seq (.char '\'') (.char ')')))

/-- The part `('(.+)'|"(.+)")` of the layout pattern. -/
def layoutName : Regex :=
  .group 1
    (.alt
      (.seq (.char '\'') (.seq (.group 2 .dotPlus) (.char '\'')))
      (.seq (.char '"') (.seq (.group 3 .dotPlus) (.char '"'))))

/-- The part `(,.+)?\)$` of the layout pattern. -/
def layoutRest : Regex :=
  .seq (.opt (.group 4 (.seq (.char ',') .dotPlus))) (.seq (.char ')') .eos)

/-- The pattern `/^layout\(('(.+)'|"(.+)")(,.+)?\)$/`. -/
def layoutRegex : Regex :=
  .seq .bos (Regex.lit "layout(".data (.seq layoutName layoutRest))

/-! ## Syntax nodes and the reference extractor -/

/-- An element of the array returned by Eta's `parse`: a plain string, or an
object with a tag `t` and the code `val`. -/
inductive AstNode where
  | str (text : String)
  | obj (t : String) (val : String)
  deriving DecidableEq, Repr

/-- The callback of `ast.map(...)`: the partial named by one node, `none` for
`null` and for `undefined`. -/
def nodePartial : AstNode → Option String
  | .str _ => none
  | .obj t val =>
    if t = "r" then
      match jsMatch val includeRegex with
      | some m =>
        match m 1 with
        | some name => if name.length > 0 then some (String.mk name) else none
        | none => none
      | none => none
    else if t = "e" then
      match jsMatch val layoutRegex with
      | some m => (m 2).map String.mk
      | none => none
    else none

/-- The method `Set.prototype.add` on an insertion-ordered set. -/
def setAdd (s : List String) (x : String) : List String :=
  if x ∈ s then s else s ++ [x]

/-- The expression `Array.from(new Set(xs))`: insert the elements one by one. -/
def arrayFromSet (xs : List String) : List String :=
  xs.foldl setAdd []

/-- The constant `partials` of `transform`. -/
def partials (ast : List AstNode) : List String :=
  arrayFromSet (ast.filterMap nodePartial)

/-! ## The registry `registeredPartials` -/

/-- The callback of `partials.filter(...)`: whether the name is kept, and the
set `registeredPartials` after the call. -/
def claimName (registeredPartials : List String) (partialName : String) :
    Bool × List String :=
  if partialName ∈ registeredPartials then (false, registeredPartials)
  else (true, setAdd registeredPartials partialName)

/-- The constant `unregisteredPartials`: `partials.filter` with the stateful
callback `claimName`, run left to right; the second component is the set
`registeredPartials` afterwards. -/
def unregisteredPartials : List String → List String → List String × List String
  | [], registeredPartials => ([], registeredPartials)
  | partialName :: rest, registeredPartials =>
    let step := claimName registeredPartials partialName
    let tail := unregisteredPartials rest step.2
    (if step.1 then partialName :: tail.1 else tail.1, tail.2)

/-! ## Strings -/

/-- The method `String.prototype.endsWith`. -/
def jsEndsWith (s suffix : String) : Bool :=
  suffix.data.isSuffixOf s.data

/-- The method `String.prototype.startsWith`. -/
def jsStartsWith (s start : String) : Bool :=
  start.data.isPrefixOf s.data

/-- Replace the first occurrence of `pat` by `rep`
(`String.prototype.replace` with a string pattern and a `$`-free replacement). -/
def replaceFirstChars (pat rep : List Char) : List Char → List Char
  | [] => if pat.isEmpty then rep else []
  | c :: cs =>
    if pat.isPrefixOf (c :: cs) then rep ++ (c :: cs).drop pat.length
    else c :: replaceFirstChars pat rep cs

/-- The call `s.replace(pat, rep)` for strings `pat` and `rep`. -/
def jsReplace (s pat rep : String) : String :=
  String.mk (replaceFirstChars pat.data rep.data s.data)

/-- The call `s.replace(/\\/g, '\\\\')`: every backslash is doubled. -/
def escapeBackslashes (s : String) : String :=
  String.mk (s.data.flatMap fun c => if c = '\\' then ['\\', '\\'] else [c])

/-- The method `Array.prototype.map` with the callback taking `(element, index)`,
the first index being `start`. -/
def mapWithIndex {α β : Type} (f : α → Nat → β) : Nat → List α → List β
  | _, [] => []
  | start, x :: xs => f x start :: mapWithIndex f (start + 1) xs

/-! ## The plugin -/

/-- What the plugin takes from outside this file: the platform, the predicate
built by `createFilter(options.include ?? '**.eta', options.exclude)`, Eta's
`parse` and `compile` (an `error` is a thrown exception; `compile` is followed
by `.toString()`), and Node's `path.resolve`. -/
structure Host where
  isWindows : Bool
  filter : String → Bool
  parse : String → Except String (List AstNode)
  compile : String → Except String String
  resolve : String → String → String

/-- The constant `pathSeparators`. -/
def pathSeparators (isWindows : Bool) : String :=
  if isWindows then "\\" else "/"

/-- The constant `INTERNAL_CONFIG_MODULE_NAME`. -/
def INTERNAL_CONFIG_MODULE_NAME : String := "@@@eta-config"

/-- The constant `templatesDir` of `etaPlugin`, for a separator `sep`. -/
def normalizeTemplatesDir (templatesDir sep : String) : String :=
  if jsEndsWith templatesDir sep then templatesDir else templatesDir ++ sep

/-- The constant `importPath`. -/
def importPath (h : Host) (templatesDir partialName : String) : String :=
  if h.isWindows then escapeBackslashes (h.resolve templatesDir partialName)
  else h.resolve templatesDir partialName

/-- One import statement. -/
def importStatement (h : Host) (templatesDir partialName : String) (index : Nat) : String :=
  "import \x7b template as partialTemplate$" ++ toString index ++ " \x7d from '" ++
    importPath h templatesDir partialName ++ "'"

/-- One registration statement. -/
def defineStatement (partialName : String) (index : Nat) : String :=
  "config.templates.define('" ++ partialName ++ "', partialTemplate$" ++
    toString index ++ ")"

/-- The array mapped to build `partialImportStatements`, before `.join`. -/
def partialImportLines (h : Host) (templatesDir : String) (names : List String) :
    List String :=
  mapWithIndex (importStatement h templatesDir) 0 names

/-- The array mapped to build `partialDefineStatements`, before `.join`. -/
def partialDefineLines (names : List String) : List String :=
  mapWithIndex defineStatement 0 names

/-- The constant `partialImportStatements`. -/
def partialImportStatements (h : Host) (templatesDir : String) (names : List String) :
    String :=
  "\n".intercalate (partialImportLines h templatesDir names)

/-- The constant `partialDefineStatements`. -/
def partialDefineStatements (names : List String) : String :=
  "\n".intercalate (partialDefineLines names)

/-- The constant `templateFn`, from the text of the compiled function. -/
def renameTemplateFn (compiled : String) : String :=
  jsReplace compiled "function anonymous" "export function template"

/-- The constant `source`: the template literal of `transform`. -/
def moduleSource (h : Host) (templatesDir : String) (names : List String)
    (templateFn : String) : String :=
  "import \x7b config \x7d from '" ++ INTERNAL_CONFIG_MODULE_NAME ++ "'\n" ++
    partialImportStatements h templatesDir names ++ "\n\n" ++
    partialDefineStatements names ++ "\n\n" ++
    templateFn ++ "\n\n" ++
    "export default function templateFunction (data) \x7b\n" ++
    "  return template(data, config)\n" ++
    "\x7d"

/-- How a call of `transform` ends. -/
inductive Outcome where
  | undefined
  | throw (message : String)
  | source (text : String)
  deriving DecidableEq, Repr

/-- The message of the error thrown for a file outside `templatesDir`. -/
def outOfRootMessage : String := "can not use template outside `templatesDir`"

/-- The state of one plugin instance: what the closure of `etaPlugin` holds. -/
structure Plugin where
  host : Host
  templatesDir : String
  registeredPartials : List String

/-- The function `etaPlugin`: normalise `options.templatesDir`, start with an
empty set. -/
def etaPlugin (h : Host) (optionsTemplatesDir : String) : Plugin :=
  { host := h
    templatesDir := normalizeTemplatesDir optionsTemplatesDir (pathSeparators h.isWindows)
    registeredPartials := [] }

/-- The hook `transform(code, id)`: its outcome and the plugin afterwards. -/
def Plugin.transform (p : Plugin) (code id : String) : Outcome × Plugin :=
  if !p.host.filter id then (.undefined, p)
  else if !jsStartsWith id p.templatesDir then (.throw outOfRootMessage, p)
  else
    match p.host.parse code with
    | .error e => (.throw e, p)
    | .ok ast =>
      match p.host.compile code with
      | .error e => (.throw e, p)
      | .ok compiled =>
        let claimed := unregisteredPartials (partials ast) p.registeredPartials
        (.source (moduleSource p.host p.templatesDir claimed.1 (renameTemplateFn compiled)),
          { p with registeredPartials := claimed.2 })

/-- Run `transform` over the files in processing order; the outcomes, and the
plugin at the end. -/
def Plugin.transformAll : Plugin → List (String × String) → List Outcome × Plugin
  | p, [] => ([], p)
  | p, (code, id) :: files =>
    let first := p.transform code id
    let others := Plugin.transformAll first.2 files
    (first.1 :: others.1, others.2)

/-! ## Definitions that follow the specification -/

/-- Spec: the elements of a list, each kept at its first occurrence. -/
def firstOccurrences : List String → List String
  | [] => []
  | x :: xs => x :: (firstOccurrences xs).filter (fun y => decide (y ≠ x))

/-- Spec: the position of the first node that yields the name `a`. -/
def firstNode (ast : List AstNode) (a : String) : Nat :=
  ast.findIdx (fun node => nodePartial node == some a)

/-- Spec: the registry after a series of claims. -/
def registryAfter (registeredPartials : List String) (claims : List (List String)) :
    List String :=
  claims.foldl (fun reg names => (unregisteredPartials names reg).2) registeredPartials

/-- One call of `transform` together with what the frontend answers for it. -/
structure FileRun where
  code : String
  id : String
  ast : List AstNode
  compiled : String

/-- The call is accepted by the filter, lies under `templatesDir`, and the
frontend parses and compiles its source. -/
def FileRun.Succeeds (p : Plugin) (r : FileRun) : Prop :=
  p.host.filter r.id = true ∧ jsStartsWith r.id p.templatesDir = true ∧
    p.host.parse r.code = .ok r.ast ∧ p.host.compile r.code = .ok r.compiled

/-- Spec: the names referenced by file `k` and by none of the files before it. -/
def firstReferencedBy (asts : List (List AstNode)) (k : Nat) : List String :=
  (partials (asts.getD k [])).filter (fun x => decide (x ∉ (asts.take k).flatMap partials))

/-- Spec: the references of a tree in first-occurrence order, without the names
already in the registry. -/
def newReferences (ast : List AstNode) (registeredPartials : List String) : List String :=
  (firstOccurrences (ast.filterMap nodePartial)).filter
    (fun x => decide (x ∉ registeredPartials))

/-- The local alias `partialTemplate$<index>` of a partial. -/
def partialAlias (index : Nat) : String := "partialTemplate$" ++ toString index

/-- Read a decimal numeral back. -/
def decimalValue (ds : List Char) (start : Nat) : Nat :=
  ds.foldl (fun acc c => acc * 10 + (c.toNat - 48)) start

/-- Spec: the import statement that binds the alias of index `i` to the
`template` export of the module at `path`. -/
def importStatementText (path : String) (i : Nat) : String :=
  "import \x7b template as partialTemplate$" ++ toString i ++ " \x7d from '" ++ path ++ "'"

/-- Spec: the statement that registers `name` with the alias of index `i`. -/
def defineStatementText (name : String) (i : Nat) : String :=
  "config.templates.define('" ++ name ++ "', partialTemplate$" ++ toString i ++ ")"

/-- Spec: one import statement per name, in the order of the names, the `i`-th
with the alias of index `i`. -/
def importLinesText (path : String → String) (names : List String) : List String :=
  List.zipWith (fun name i => importStatementText (path name) i) names
    (List.range names.length)

/-- Spec: one registration statement per name, in the order of the names, the
`i`-th with the alias of index `i`. -/
def defineLinesText (names : List String) : List String :=
  List.zipWith defineStatementText names (List.range names.length)

/-- Spec: the path literal of a partial: the root joined with the name by
`path.resolve`, with every backslash doubled on Windows. -/
def resolvedPath (h : Host) (templatesRoot name : String) : String :=
  if h.isWindows then escapeBackslashes (h.resolve templatesRoot name)
  else h.resolve templatesRoot name

/-- Spec: the synthesized module for the names `names`: the config import, the
statements that import the partials, an empty line, the registration
statements, an empty line, the render function, an empty line, the default
export. -/
def moduleText (path : String → String) (names : List String) (templateFn : String) :
    String :=
  "import \x7b config \x7d from '@@@eta-config'\n" ++
    "\n".intercalate (importLinesText path names) ++ "\n\n" ++
    "\n".intercalate (defineLinesText names) ++ "\n\n" ++
    templateFn ++
    "\n\nexport default function templateFunction (data) \x7b\n  return template(data, config)\n\x7d"

/-- The module text of an outcome; empty when the call gave none. -/
def Outcome.text : Outcome → String
  | .source text => text
  | _ => ""

/-- Spec: whether the text `part` occurs in `text`. -/
def occursIn (part text : String) : Bool :=
  text.data.tails.any (fun rest => part.data.isPrefixOf rest)

/-- The first line of every synthesized module. -/
def configImportLine : String := "import \x7b config \x7d from '@@@eta-config'\n"

/-- The last lines of every synthesized module. -/
def defaultExportLines : String :=
  "\n\nexport default function templateFunction (data) \x7b\n  return template(data, config)\n\x7d"

/-! ## Sample inputs -/

/-- A host on a POSIX platform: the default filter `**.eta`, a frontend that
reads the whole source as one raw expression (and `Hello <%~ ... %>` as a text
followed by a raw expression), and `path.resolve` on an absolute directory
that ends with the separator and a plain file name. -/
def sampleHost : Host :=
  { isWindows := false
    filter := fun id => jsEndsWith id ".eta"
    parse := fun code =>
      if code = "Hello <%~ E.include('greeting') %>" then
        .ok [.str "Hello ", .obj "r" "E.include('greeting')"]
      else .ok [.obj "r" code]
    compile := fun _ => .ok "function anonymous(it,E,cb\n) \x7b\nreturn tR\n\x7d"
    resolve := fun dir name => dir ++ name }

/-- Two files that both include the partial `header`, as `sampleHost` reads them. -/
def headerRuns : List FileRun :=
  [ { code := "E.include('header')", id := "/t/a.eta",
      ast := [.obj "r" "E.include('header')"],
      compiled := "function anonymous(it,E,cb\n) \x7b\nreturn tR\n\x7d" },
    { code := "E.include('header')", id := "/t/b.eta",
      ast := [.obj "r" "E.include('header')"],
      compiled := "function anonymous(it,E,cb\n) \x7b\nreturn tR\n\x7d" } ]

/-- The file `Hello <%~ E.include('greeting') %>`, as `sampleHost` reads it. -/
def greetingRun : FileRun :=
  { code := "Hello <%~ E.include('greeting') %>", id := "/t/hello.eta",
    ast := [.str "Hello ", .obj "r" "E.include('greeting')"],
    compiled := "function anonymous(it,E,cb\n) \x7b\nreturn tR\n\x7d" }

/-- The host `sampleHost` with a frontend that refuses the unclosed tag of
`Hello <%~ E.include('greeting')`. -/
def strictHost : Host :=
  { sampleHost with
    parse := fun code =>
      if code = "Hello <%~ E.include('greeting')" then .error "unclosed tag"
      else sampleHost.parse code }

/-- The host `sampleHost` with a frontend that reads the page below as four
nodes: includes of `b` and `a`, a layout call of `b`, an include of `c`. -/
def orderHost : Host :=
  { sampleHost with
    parse := fun code =>
      if code = "<%~ E.include('b') %><%~ E.include('a') %><% layout('b') %><%~ E.include('c') %>"
      then .ok [.obj "r" "E.include('b')", .obj "r" "E.include('a')", .obj "e" "layout('b')",
        .obj "r" "E.include('c')"]
      else sampleHost.parse code }

/-- The page of `orderHost`. -/
def orderRun : FileRun :=
  { code := "<%~ E.include('b') %><%~ E.include('a') %><% layout('b') %><%~ E.include('c') %>",
    id := "/t/page.eta",
    ast := [.obj "r" "E.include('b')", .obj "r" "E.include('a')", .obj "e" "layout('b')",
      .obj "r" "E.include('c')"],
    compiled := "function anonymous(it,E,cb\n) \x7b\nreturn tR\n\x7d" }

/-- A plugin on `orderHost` under the root `/t/` that has already registered `a`. -/
def orderPlugin : Plugin :=
  { etaPlugin orderHost "/t" with registeredPartials := ["a"] }

/-! ## Lemmas on the matcher -/

theorem dotStarK_eq_of_later_none {α : Type} (k : Nat → List Char → Option α) :
    ∀ (r : List Char) (pos : Nat),
      (∀ q1 q2, q1 ≠ [] → r = q1 ++ q2 → k (pos + q1.length) q2 = none) →
      dotStarK k pos r = k pos r := by
  intro r
  induction r with
  | nil => intro pos _; simp [dotStarK]
  | cons c cs ih =>
    intro pos h
    unfold dotStarK
    split
    · rfl
    · have h1 : dotStarK k (pos + 1) cs = k (pos + 1) cs := by
        apply ih
        intro q1 q2 hq hcs
        have := h (c :: q1) q2 (by simp) (by simp [hcs])
        simpa [Nat.add_assoc, Nat.add_comm 1] using this
      have h2 : k (pos + 1) cs = none := by
        simpa using h [c] cs (by simp) (by simp)
      rw [h1, h2]

/-- The greedy scan stops after `p` when the continuation accepts there and
nowhere later. -/
theorem dotStarK_greedy {α : Type} (k : Nat → List Char → Option α) :
    ∀ (p r : List Char) (pos : Nat) (v : α),
      (∀ c ∈ p, isLineTerminator c = false) →
      k (pos + p.length) r = some v →
      (∀ q1 q2, q1 ≠ [] → r = q1 ++ q2 → k (pos + p.length + q1.length) q2 = none) →
      dotStarK k pos (p ++ r) = some v := by
  intro p
  induction p with
  | nil =>
    intro r pos v _ hk hn
    simp only [List.nil_append]
    rw [dotStarK_eq_of_later_none k r pos (by simpa using hn)]
    simpa using hk
  | cons c cs ih =>
    intro r pos v hlt hk hn
    have hc : isLineTerminator c = false := hlt c (by simp)
    have h1 : dotStarK k (pos + 1) (cs ++ r) = some v := by
      apply ih
      · intro d hd; exact hlt d (by simp [hd])
      · simpa [Nat.add_assoc, Nat.add_comm 1] using hk
      · intro q1 q2 hq hr
        have := hn q1 q2 hq hr
        simpa [Nat.add_assoc, Nat.add_comm 1] using this
    simp only [List.cons_append]
    unfold dotStarK
    simp [hc, h1]

theorem run_seq (a b : Regex) (pos : Nat) (s : List Char) (caps : Captures)
    (k : Nat → List Char → Captures → Option Captures) :
    (Regex.seq a b).run pos s caps k = a.run pos s caps (fun p r cs => b.run p r cs k) := rfl

theorem run_group (i : Nat) (a : Regex) (pos : Nat) (s : List Char) (caps : Captures)
    (k : Nat → List Char → Captures → Option Captures) :
    (Regex.group i a).run pos s caps k =
      a.run pos s caps (fun p r cs => k p r (cs.set i (s.take (p - pos)))) := rfl

theorem run_char_same (c : Char) (pos : Nat) (s : List Char) (caps : Captures)
    (k : Nat → List Char → Captures → Option Captures) :
    (Regex.char c).run pos (c :: s) caps k = k (pos + 1) s caps := by
  simp [Regex.run]

theorem run_char_other (c d : Char) (h : d ≠ c) (pos : Nat) (s : List Char) (caps : Captures)
    (k : Nat → List Char → Captures → Option Captures) :
    (Regex.char c).run pos (d :: s) caps k = none := by
  simp [Regex.run, h]

theorem run_opt_some (a : Regex) (pos : Nat) (s : List Char) (caps v : Captures)
    (k : Nat → List Char → Captures → Option Captures)
    (h : a.run pos s caps k = some v) : (Regex.opt a).run pos s caps k = some v := by
  simp [Regex.run, h]

theorem run_alt_some (a b : Regex) (pos : Nat) (s : List Char) (caps v : Captures)
    (k : Nat → List Char → Captures → Option Captures)
    (h : a.run pos s caps k = some v) : (Regex.alt a b).run pos s caps k = some v := by
  simp [Regex.run, h]

/-- Greedy `.+` in front of a continuation that accepts after `p` and nowhere later. -/
theorem run_dotPlus_greedy (k : Nat → List Char → Captures → Option Captures)
    (p r : List Char) (pos : Nat) (caps v : Captures)
    (hp : p ≠ []) (hlt : ∀ c ∈ p, isLineTerminator c = false)
    (hk : k (pos + p.length) r caps = some v)
    (hlater : ∀ q1 q2, q1 ≠ [] → r = q1 ++ q2 → k (pos + p.length + q1.length) q2 caps = none) :
    Regex.dotPlus.run pos (p ++ r) caps k = some v := by
  obtain ⟨c, p', rfl⟩ := List.exists_cons_of_ne_nil hp
  have hc : isLineTerminator c = false := hlt c (by simp)
  simp only [List.cons_append, Regex.run, hc]
  apply dotStarK_greedy (fun p r => k p r caps) p' r (pos + 1) v
  · intro d hd; exact hlt d (by simp [hd])
  · simpa [Nat.add_assoc, Nat.add_comm 1] using hk
  · intro q1 q2 hq hr
    simpa [Nat.add_assoc, Nat.add_comm 1] using hlater q1 q2 hq hr

/-- The tail `(,.+)?\)$` on `,a)`: the optional group takes all of `,a`. -/
theorem layoutRest_args (k : Nat → List Char → Captures → Option Captures)
    (a : List Char) (pos : Nat) (caps v : Captures)
    (ha : a ≠ []) (hlt : ∀ c ∈ a, isLineTerminator c = false)
    (hk : k (pos + a.length + 2) [] (caps.set 4 (',' :: a)) = some v) :
    layoutRest.run pos (',' :: (a ++ [')'])) caps k = some v := by
  rw [layoutRest, run_seq]
  apply run_opt_some
  rw [run_group, run_seq, run_char_same]
  apply run_dotPlus_greedy _ a [')'] (pos + 1) caps v ha hlt
  · have e : pos + 1 + a.length + 1 = pos + a.length + 2 := by omega
    have e2 : pos + 1 + a.length - pos = a.length + 1 := by omega
    simp [Regex.run, e, e2, hk]
  · intro q1 q2 hq hr
    have : q2 = [] := by
      cases q1 with
      | nil => exact absurd rfl hq
      | cons x xs =>
        simp at hr
        have := hr.2
        simp at this
        exact this.2
    subst this
    simp [Regex.run]

/-- The tail `(,.+)?\)$` on `)`: the optional group is skipped. -/
theorem layoutRest_close (k : Nat → List Char → Captures → Option Captures)
    (pos : Nat) (caps : Captures) :
    layoutRest.run pos [')'] caps k = k (pos + 1) [] caps := by
  simp [layoutRest, Regex.run]

/-- The name part on `'n'` followed by text without a single quote: group 2 is `n`. -/
theorem layoutName_single (k : Nat → List Char → Captures → Option Captures)
    (n rest : List Char) (pos : Nat) (caps v : Captures)
    (hn : n ≠ []) (hlt : ∀ c ∈ n, isLineTerminator c = false)
    (hrest : '\'' ∉ rest)
    (hk : k (pos + n.length + 2) rest
      ((caps.set 2 n).set 1 ('\'' :: (n ++ ['\'']))) = some v) :
    layoutName.run pos ('\'' :: (n ++ '\'' :: rest)) caps k = some v := by
  rw [layoutName, run_group]
  apply run_alt_some
  rw [run_seq, run_char_same, run_seq, run_group]
  apply run_dotPlus_greedy _ n ('\'' :: rest) (pos + 1) caps v hn hlt
  · have e : pos + 1 + n.length + 1 = pos + n.length + 2 := by omega
    have e2 : pos + 1 + n.length - (pos + 1) = n.length := by omega
    have e3 : pos + n.length + 2 - pos = n.length + 1 + 1 := by omega
    have e4 : List.take (n.length + 1) (n ++ '\'' :: rest) = n ++ ['\''] := by
      rw [List.take_append_eq_append_take]; simp
    rw [run_char_same]
    simp [e, e2, e3, e4, hk]
  · intro q1 q2 hq hr
    cases q1 with
    | nil => exact absurd rfl hq
    | cons x xs =>
      simp at hr
      cases q2 with
      | nil => rfl
      | cons y ys =>
        have hy : y ≠ '\'' := by
          intro hy
          apply hrest
          rw [hr.2, hy]
          simp
        exact run_char_other _ _ hy _ _ _ _

theorem layoutRegex_run_start (s : List Char) (caps : Captures)
    (k : Nat → List Char → Captures → Option Captures) :
    layoutRegex.run 0 ('l' :: 'a' :: 'y' :: 'o' :: 'u' :: 't' :: '(' :: s) caps k =
      layoutName.run 7 s caps (fun p r cs => layoutRest.run p r cs k) := by
  simp [layoutRegex, Regex.lit, Regex.run]

theorem execFrom_of_run (re : Regex) (c : Char) (cs : List Char) (pos : Nat) (v : Captures)
    (h : re.run pos (c :: cs) (fun _ => none)
      (fun p _ caps => some (caps.set 0 ((c :: cs).take (p - pos)))) = some v) :
    re.execFrom pos (c :: cs) = some v := by
  simp [Regex.execFrom, h]

/-- The layout pattern on `layout('n',a)`. -/
theorem layoutRegex_single_args (n a : List Char)
    (hn : n ≠ []) (hnl : ∀ c ∈ n, isLineTerminator c = false)
    (ha : a ≠ []) (haq : '\'' ∉ a) (hal : ∀ c ∈ a, isLineTerminator c = false) :
    ∃ m, layoutRegex.execFrom 0
        ('l' :: 'a' :: 'y' :: 'o' :: 'u' :: 't' :: '(' :: '\'' ::
          (n ++ '\'' :: ',' :: (a ++ [')']))) = some m ∧ m 2 = some n := by
  refine ⟨(((Captures.set (fun _ => none) 2 n).set 1 ('\'' :: (n ++ ['\'']))).set 4
    (',' :: a)).set 0 (List.take (7 + n.length + 2 + a.length + 2 - 0)
      ('l' :: 'a' :: 'y' :: 'o' :: 'u' :: 't' :: '(' :: '\'' :: (n ++ '\'' :: ',' :: (a ++ [')'])))),
    execFrom_of_run _ _ _ _ _ ?h, ?h2⟩
  case h =>
    rw [layoutRegex_run_start]
    apply layoutName_single _ n _ 7 _ _ hn hnl
    · simp [haq]
    · apply layoutRest_args _ a _ _ _ ha hal
      rfl
  case h2 => simp [Captures.set]

/-- The layout pattern on `layout('n')`. -/
theorem layoutRegex_single (n : List Char)
    (hn : n ≠ []) (hnl : ∀ c ∈ n, isLineTerminator c = false) :
    ∃ m, layoutRegex.execFrom 0
        ('l' :: 'a' :: 'y' :: 'o' :: 'u' :: 't' :: '(' :: '\'' :: (n ++ '\'' :: [')'])) = some m ∧
      m 2 = some n := by
  refine ⟨((Captures.set (fun _ => none) 2 n).set 1 ('\'' :: (n ++ ['\'']))).set 0
    (List.take (7 + n.length + 2 + 1 - 0)
      ('l' :: 'a' :: 'y' :: 'o' :: 'u' :: 't' :: '(' :: '\'' :: (n ++ ['\'', ')']))),
    execFrom_of_run _ _ _ _ _ ?h, ?h2⟩
  case h =>
    rw [layoutRegex_run_start]
    apply layoutName_single _ n _ 7 _ _ hn hnl
    · simp
    · rw [layoutRest_close]
  case h2 => simp [Captures.set]

theorem nodePartial_layout_single_args (n a : String)
    (hn : n ≠ "") (hnl : ∀ c ∈ n.data, isLineTerminator c = false)
    (ha : a ≠ "") (haq : '\'' ∉ a.data) (hal : ∀ c ∈ a.data, isLineTerminator c = false) :
    nodePartial (.obj "e" ("layout('" ++ n ++ "'," ++ a ++ ")")) = some n := by
  have hn' : n.data ≠ [] := fun h => hn (String.ext h)
  have ha' : a.data ≠ [] := fun h => ha (String.ext h)
  obtain ⟨m, hm, hm2⟩ := layoutRegex_single_args n.data a.data hn' hnl ha' haq hal
  have hd : ("layout('" ++ n ++ "'," ++ a ++ ")").data =
      'l' :: 'a' :: 'y' :: 'o' :: 'u' :: 't' :: '(' :: '\'' ::
          (n.data ++ '\'' :: ',' :: (a.data ++ [')'])) := by
    simp [String.data_append]
  simp [nodePartial, jsMatch, hd, hm, hm2]

theorem nodePartial_layout_single (n : String)
    (hn : n ≠ "") (hnl : ∀ c ∈ n.data, isLineTerminator c = false) :
    nodePartial (.obj "e" ("layout('" ++ n ++ "')")) = some n := by
  have hn' : n.data ≠ [] := fun h => hn (String.ext h)
  obtain ⟨m, hm, hm2⟩ := layoutRegex_single n.data hn' hnl
  have hd : ("layout('" ++ n ++ "')").data =
      'l' :: 'a' :: 'y' :: 'o' :: 'u' :: 't' :: '(' :: '\'' :: (n.data ++ '\'' :: [')']) := by
    simp [String.data_append]
  simp [nodePartial, jsMatch, hd, hm, hm2]

theorem dotStarK_some {α : Type} (k : Nat → List Char → Option α) (v : α) :
    ∀ (s : List Char) (pos : Nat), dotStarK k pos s = some v → ∃ p r, k p r = some v := by
  intro s
  induction s with
  | nil => intro pos h; exact ⟨pos, [], by simpa [dotStarK] using h⟩
  | cons c cs ih =>
    intro pos h
    unfold dotStarK at h
    split at h
    · exact ⟨_, _, h⟩
    · split at h
      · next r hr =>
        cases h
        exact ih _ hr
      · exact ⟨_, _, h⟩

/-- A regex without group `i` leaves slot `i` unset when the continuation does. -/
theorem run_slot_none (i : Nat) (re : Regex) :
    ∀ (pos : Nat) (s : List Char) (caps v : Captures)
      (k : Nat → List Char → Captures → Option Captures),
      re.hasGroup i = false → caps i = none →
      (∀ p r cs w, cs i = none → k p r cs = some w → w i = none) →
      re.run pos s caps k = some v → v i = none := by
  induction re with
  | char c =>
    intro pos s caps v k _ hc hk h
    cases s with
    | nil => simp [Regex.run] at h
    | cons d ds =>
      simp only [Regex.run] at h
      split at h
      · exact hk _ _ _ _ hc h
      · cases h
  | bos =>
    intro pos s caps v k _ hc hk h
    simp only [Regex.run] at h
    split at h
    · exact hk _ _ _ _ hc h
    · cases h
  | eos =>
    intro pos s caps v k _ hc hk h
    cases s with
    | nil => exact hk _ _ _ _ hc (by simpa [Regex.run] using h)
    | cons d ds => simp [Regex.run] at h
  | dotStar =>
    intro pos s caps v k _ hc hk h
    simp only [Regex.run] at h
    obtain ⟨p, r, hpr⟩ := dotStarK_some _ v s pos h
    exact hk _ _ _ _ hc hpr
  | dotPlus =>
    intro pos s caps v k _ hc hk h
    cases s with
    | nil => simp [Regex.run] at h
    | cons d ds =>
      simp only [Regex.run] at h
      split at h
      · cases h
      · obtain ⟨p, r, hpr⟩ := dotStarK_some _ v ds (pos + 1) h
        exact hk _ _ _ _ hc hpr
  | seq a b iha ihb =>
    intro pos s caps v k hg hc hk h
    simp only [Regex.hasGroup, Bool.or_eq_false_iff] at hg
    simp only [Regex.run] at h
    exact iha pos s caps v _ hg.1 hc
      (fun p r cs w hcs hw => ihb p r cs w k hg.2 hcs hk hw) h
  | alt a b iha ihb =>
    intro pos s caps v k hg hc hk h
    simp only [Regex.hasGroup, Bool.or_eq_false_iff] at hg
    simp only [Regex.run] at h
    split at h
    · next r hr =>
      cases h
      exact iha pos s caps _ k hg.1 hc hk hr
    · exact ihb pos s caps v k hg.2 hc hk h
  | opt a iha =>
    intro pos s caps v k hg hc hk h
    simp only [Regex.hasGroup] at hg
    simp only [Regex.run] at h
    split at h
    · next r hr =>
      cases h
      exact iha pos s caps _ k hg hc hk hr
    · exact hk _ _ _ _ hc h
  | group j a iha =>
    intro pos s caps v k hg hc hk h
    simp only [Regex.hasGroup, Bool.or_eq_false_iff, beq_eq_false_iff_ne, ne_eq] at hg
    simp only [Regex.run] at h
    refine iha pos s caps v _ hg.2 hc (fun p r cs w hcs hw => ?_) h
    refine hk p r _ w ?_ hw
    simp only [Captures.set]
    rw [if_neg (fun e => hg.1 e.symm)]
    exact hcs

theorem layoutRegex_execFrom_succ (s : List Char) :
    ∀ pos : Nat, layoutRegex.execFrom (pos + 1) s = none := by
  induction s with
  | nil => intro pos; simp [Regex.execFrom, layoutRegex, Regex.run]
  | cons c cs ih =>
    intro pos
    rw [Regex.execFrom]
    have : layoutRegex.run (pos + 1) (c :: cs) (fun _ => none)
        (fun p _ caps => some (caps.set 0 ((c :: cs).take (p - (pos + 1))))) = none := by
      simp [layoutRegex, Regex.run]
    rw [this]
    exact ih (pos + 1)

theorem layoutName_run_double (rest : List Char) (pos : Nat) (caps : Captures)
    (k : Nat → List Char → Captures → Option Captures) :
    layoutName.run pos ('"' :: rest) caps k =
      (Regex.group 1 (.seq (.char '"') (.seq (.group 3 .dotPlus) (.char '"')))).run
        pos ('"' :: rest) caps k := by
  simp [layoutName, Regex.run]

/-- On a double-quoted call the layout pattern never fills group 2. -/
theorem layoutRegex_double_quoted (rest : List Char) (m : Captures)
    (h : layoutRegex.execFrom 0 ('l' :: 'a' :: 'y' :: 'o' :: 'u' :: 't' :: '(' :: '"' :: rest)
      = some m) : m 2 = none := by
  rw [Regex.execFrom, layoutRegex_execFrom_succ] at h
  split at h
  · next r hr =>
    cases h
    rw [layoutRegex_run_start, layoutName_run_double, ← run_seq] at hr
    refine run_slot_none 2 _ _ _ _ _ _ (by decide) rfl ?_ hr
    intro p q cs w hcs hw
    cases hw
    simp [Captures.set, hcs]
  · cases h

theorem nodePartial_layout_double (rest : String) :
    nodePartial (.obj "e" ("layout(\"" ++ rest)) = none := by
  have hd : ("layout(\"" ++ rest).data =
      'l' :: 'a' :: 'y' :: 'o' :: 'u' :: 't' :: '(' :: '"' :: rest.data := by
    simp [String.data_append]
  cases hm : layoutRegex.execFrom 0
      ('l' :: 'a' :: 'y' :: 'o' :: 'u' :: 't' :: '(' :: '"' :: rest.data) with
  | none => simp [nodePartial, jsMatch, hd, hm]
  | some m => simp [nodePartial, jsMatch, hd, hm, layoutRegex_double_quoted rest.data m hm]

theorem dotStarK_none {α : Type} (q : Char → Bool) (k : Nat → List Char → Option α)
    (hk : ∀ p r, (∀ c ∈ r, q c = false) → k p r = none) :
    ∀ (s : List Char) (pos : Nat), (∀ c ∈ s, q c = false) → dotStarK k pos s = none := by
  intro s
  induction s with
  | nil => intro pos hs; simpa [dotStarK] using hk pos [] hs
  | cons c cs ih =>
    intro pos hs
    have hcs : ∀ d ∈ cs, q d = false := fun d hd => hs d (List.mem_cons_of_mem _ hd)
    unfold dotStarK
    simp [ih (pos + 1) hcs, hk pos (c :: cs) hs]

/-- The continuation is only run on a rest of the input: when it fails on every
text without `q`-characters, so does the run on such a text. -/
theorem run_none_of_continuation (q : Char → Bool) (re : Regex) :
    ∀ (pos : Nat) (s : List Char) (caps : Captures)
      (k : Nat → List Char → Captures → Option Captures),
      (∀ c ∈ s, q c = false) →
      (∀ p r cs, (∀ c ∈ r, q c = false) → k p r cs = none) →
      re.run pos s caps k = none := by
  induction re with
  | char c =>
    intro pos s caps k hs hk
    cases s with
    | nil => rfl
    | cons d ds =>
      simp only [Regex.run]
      split
      · exact hk _ _ _ (fun e he => hs e (List.mem_cons_of_mem _ he))
      · rfl
  | bos =>
    intro pos s caps k hs hk
    simp only [Regex.run]
    split
    · exact hk _ _ _ hs
    · rfl
  | eos =>
    intro pos s caps k hs hk
    cases s with
    | nil => exact hk _ _ _ hs
    | cons d ds => rfl
  | dotStar =>
    intro pos s caps k hs hk
    simp only [Regex.run]
    exact dotStarK_none q _ (fun p r hr => hk p r caps hr) s pos hs
  | dotPlus =>
    intro pos s caps k hs hk
    cases s with
    | nil => rfl
    | cons d ds =>
      simp only [Regex.run]
      split
      · rfl
      · exact dotStarK_none q _ (fun p r hr => hk p r caps hr) ds (pos + 1)
          (fun e he => hs e (List.mem_cons_of_mem _ he))
  | seq a b iha ihb =>
    intro pos s caps k hs hk
    simp only [Regex.run]
    exact iha pos s caps _ hs (fun p r cs hr => ihb p r cs k hr hk)
  | alt a b iha ihb =>
    intro pos s caps k hs hk
    simp only [Regex.run, iha pos s caps k hs hk, ihb pos s caps k hs hk]
  | opt a iha =>
    intro pos s caps k hs hk
    simp only [Regex.run, iha pos s caps k hs hk, hk pos s caps hs]
  | group i a iha =>
    intro pos s caps k hs hk
    simp only [Regex.run]
    exact iha pos s caps _ hs (fun p r cs hr => hk p r _ hr)

/-- A regex that has to read a `q`-character fails on a text without one. -/
theorem run_none_of_mustRead (q : Char → Bool) (re : Regex) :
    ∀ (pos : Nat) (s : List Char) (caps : Captures)
      (k : Nat → List Char → Captures → Option Captures),
      re.mustRead q = true → (∀ c ∈ s, q c = false) → re.run pos s caps k = none := by
  induction re with
  | char c =>
    intro pos s caps k hm hs
    cases s with
    | nil => rfl
    | cons d ds =>
      have hd : d ≠ c := by
        intro e
        have := hs d (by simp)
        rw [e] at this
        simp only [Regex.mustRead] at hm
        rw [hm] at this
        cases this
      simp [Regex.run, hd]
  | bos => intro pos s caps k hm; simp [Regex.mustRead] at hm
  | eos => intro pos s caps k hm; simp [Regex.mustRead] at hm
  | dotStar => intro pos s caps k hm; simp [Regex.mustRead] at hm
  | dotPlus => intro pos s caps k hm; simp [Regex.mustRead] at hm
  | seq a b iha ihb =>
    intro pos s caps k hm hs
    simp only [Regex.mustRead, Bool.or_eq_true] at hm
    simp only [Regex.run]
    rcases hm with hm | hm
    · exact iha pos s caps _ hm hs
    · exact run_none_of_continuation q a pos s caps _ hs
        (fun p r cs hr => ihb p r cs k hm hr)
  | alt a b iha ihb =>
    intro pos s caps k hm hs
    simp only [Regex.mustRead, Bool.and_eq_true] at hm
    simp only [Regex.run, iha pos s caps k hm.1 hs, ihb pos s caps k hm.2 hs]
  | opt a _ => intro pos s caps k hm; simp [Regex.mustRead] at hm
  | group i a iha =>
    intro pos s caps k hm hs
    simp only [Regex.mustRead] at hm
    simp only [Regex.run]
    exact iha pos s caps _ hm hs

theorem execFrom_none_of_mustRead (q : Char → Bool) (re : Regex) (hm : re.mustRead q = true) :
    ∀ (s : List Char) (pos : Nat), (∀ c ∈ s, q c = false) → re.execFrom pos s = none := by
  intro s
  induction s with
  | nil =>
    intro pos hs
    simp only [Regex.execFrom]
    exact run_none_of_mustRead q re pos [] _ _ hm hs
  | cons c cs ih =>
    intro pos hs
    rw [Regex.execFrom, run_none_of_mustRead q re pos (c :: cs) _ _ hm hs]
    exact ih (pos + 1) (fun d hd => hs d (List.mem_cons_of_mem _ hd))

theorem includeRegex_mustRead : includeRegex.mustRead isQuote = true := by decide

theorem layoutRegex_mustRead : layoutRegex.mustRead isQuote = true := by decide

theorem nodePartial_of_no_quote (t val : String) (h : ∀ c ∈ val.data, isQuote c = false) :
    nodePartial (.obj t val) = none := by
  simp only [nodePartial, jsMatch,
    execFrom_none_of_mustRead isQuote includeRegex includeRegex_mustRead val.data 0 h,
    execFrom_none_of_mustRead isQuote layoutRegex layoutRegex_mustRead val.data 0 h]
  split
  · rfl
  · split <;> rfl

theorem includeRegex_run_start (s : List Char) (caps : Captures)
    (k : Nat → List Char → Captures → Option Captures) :
    includeRegex.run 0
        ('E' :: '.' :: 'i' :: 'n' :: 'c' :: 'l' :: 'u' :: 'd' :: 'e' :: '(' :: '\'' :: s) caps k =
      (Regex.seq (.group 1 .dotStar) (.seq (.char '\'') (.char ')'))).run 11 s caps k := by
  simp [includeRegex, Regex.lit, Regex.run]

/-- The include pattern on `E.include('n')` followed by text without a single
quote: group 1 is `n`. -/
theorem includeRegex_single (n post : List Char)
    (hnl : ∀ c ∈ n, isLineTerminator c = false) (hpost : '\'' ∉ post) :
    ∃ m, includeRegex.execFrom 0
        ('E' :: '.' :: 'i' :: 'n' :: 'c' :: 'l' :: 'u' :: 'd' :: 'e' :: '(' :: '\'' ::
          (n ++ '\'' :: ')' :: post)) = some m ∧ m 1 = some n := by
  refine ⟨(Captures.set (fun _ => none) 1 n).set 0
    (List.take (11 + n.length + 2 - 0)
      ('E' :: '.' :: 'i' :: 'n' :: 'c' :: 'l' :: 'u' :: 'd' :: 'e' :: '(' :: '\'' ::
          (n ++ '\'' :: ')' :: post))), execFrom_of_run _ _ _ _ _ ?h, ?h2⟩
  case h =>
    rw [includeRegex_run_start, run_seq, run_group]
    simp only [Regex.run]
    apply dotStarK_greedy _ n ('\'' :: ')' :: post) 11
    · exact hnl
    · have e : 11 + n.length - 11 = n.length := by omega
      simp [e]
    · intro q1 q2 hq hr
      cases q1 with
      | nil => exact absurd rfl hq
      | cons x xs =>
        simp at hr
        cases q2 with
        | nil => rfl
        | cons y ys =>
          have hy : y ≠ '\'' := by
            intro hy
            have hmem : y ∈ ')' :: post := by rw [hr.2]; simp
            rw [hy] at hmem
            simp at hmem
            exact hpost hmem
          simp [hy]
  case h2 => simp [Captures.set]

theorem nodePartial_include_single (n post : String) (hn : n ≠ "")
    (hnl : ∀ c ∈ n.data, isLineTerminator c = false) (hpost : '\'' ∉ post.data) :
    nodePartial (.obj "r" ("E.include('" ++ n ++ "')" ++ post)) = some n := by
  have hn' : n.data ≠ [] := fun h => hn (String.ext h)
  obtain ⟨m, hm, hm1⟩ := includeRegex_single n.data post.data hnl hpost
  have hd : ("E.include('" ++ n ++ "')" ++ post).data =
      'E' :: '.' :: 'i' :: 'n' :: 'c' :: 'l' :: 'u' :: 'd' :: 'e' :: '(' :: '\'' ::
          (n.data ++ '\'' :: ')' :: post.data) := by
    simp [String.data_append]
  have hlen : ¬ n.length = 0 := fun h => hn' (List.length_eq_zero.mp h)
  simp [nodePartial, jsMatch, hd, hm, hm1, hlen]

/-! ## Lemmas on the registry -/

theorem unregisteredPartials_cons (x : String) (xs reg : List String) :
    unregisteredPartials (x :: xs) reg =
      if x ∈ reg then unregisteredPartials xs reg
      else (x :: (unregisteredPartials xs (reg ++ [x])).1,
        (unregisteredPartials xs (reg ++ [x])).2) := by
  by_cases h : x ∈ reg <;> simp [unregisteredPartials, claimName, setAdd, h]

theorem mem_unregisteredPartials_snd (ns : List String) :
    ∀ (reg : List String) (x : String),
      x ∈ (unregisteredPartials ns reg).2 ↔ x ∈ reg ∨ x ∈ ns := by
  induction ns with
  | nil => intro reg x; simp [unregisteredPartials]
  | cons n ns ih =>
    intro reg x
    rw [unregisteredPartials_cons]
    by_cases h : n ∈ reg
    · simp only [h, if_true, ih, List.mem_cons]
      constructor
      · rintro (h1 | h1)
        · exact Or.inl h1
        · exact Or.inr (Or.inr h1)
      · rintro (h1 | h1 | h1)
        · exact Or.inl h1
        · exact Or.inl (h1 ▸ h)
        · exact Or.inr h1
    · simp only [h, if_false, ih, List.mem_cons, List.mem_append, List.mem_singleton]
      tauto

theorem unregisteredPartials_snd_eq (ns : List String) :
    ∀ reg : List String,
      (unregisteredPartials ns reg).2 = reg ++ (unregisteredPartials ns reg).1 := by
  induction ns with
  | nil => intro reg; simp [unregisteredPartials]
  | cons n ns ih =>
    intro reg
    rw [unregisteredPartials_cons]
    by_cases h : n ∈ reg
    · simp only [h, if_true]; exact ih reg
    · simp only [h, if_false]; rw [ih (reg ++ [n])]; simp

theorem unregisteredPartials_fst_of_nodup (ns : List String) :
    ∀ reg : List String, ns.Nodup →
      (unregisteredPartials ns reg).1 = ns.filter (fun x => decide (x ∉ reg)) := by
  induction ns with
  | nil => intro reg _; simp [unregisteredPartials]
  | cons n ns ih =>
    intro reg hnd
    have hn : n ∉ ns := (List.nodup_cons.mp hnd).1
    have hns : ns.Nodup := (List.nodup_cons.mp hnd).2
    rw [unregisteredPartials_cons]
    by_cases h : n ∈ reg
    · simp [h, ih reg hns]
    · simp only [h, if_false, ih (reg ++ [n]) hns]
      rw [List.filter_cons_of_pos (by simpa using h)]
      congr 1
      apply List.filter_congr
      intro x hx
      have : x ≠ n := fun e => hn (e ▸ hx)
      simp [this]

theorem mem_unregisteredPartials_fst (ns : List String) :
    ∀ (reg : List String) (x : String),
      x ∈ (unregisteredPartials ns reg).1 → x ∈ ns ∧ x ∉ reg := by
  induction ns with
  | nil => intro reg x; simp [unregisteredPartials]
  | cons n ns ih =>
    intro reg x
    rw [unregisteredPartials_cons]
    by_cases h : n ∈ reg
    · simp only [h, if_true]
      intro hx
      exact ⟨List.mem_cons_of_mem _ (ih reg x hx).1, (ih reg x hx).2⟩
    · simp only [h, if_false, List.mem_cons]
      rintro (rfl | hx)
      · exact ⟨Or.inl rfl, h⟩
      · have := ih _ x hx
        exact ⟨Or.inr this.1, fun hr => this.2 (List.mem_append_left _ hr)⟩

theorem unregisteredPartials_of_subset (ns : List String) :
    ∀ reg : List String, (∀ x ∈ ns, x ∈ reg) → unregisteredPartials ns reg = ([], reg) := by
  induction ns with
  | nil => intro reg _; simp [unregisteredPartials]
  | cons n ns ih =>
    intro reg h
    rw [unregisteredPartials_cons]
    simp only [h n (by simp), if_true]
    exact ih reg (fun x hx => h x (List.mem_cons_of_mem _ hx))

theorem subset_registryAfter (claims : List (List String)) :
    ∀ (reg : List String) (x : String), x ∈ reg → x ∈ registryAfter reg claims := by
  induction claims with
  | nil => intro reg x h; simpa [registryAfter] using h
  | cons c cs ih =>
    intro reg x h
    have : registryAfter reg (c :: cs) = registryAfter (unregisteredPartials c reg).2 cs := by
      simp [registryAfter]
    rw [this]
    apply ih
    rw [mem_unregisteredPartials_snd]
    exact Or.inl h

/-! ## Lemmas on the extractor -/

theorem foldl_setAdd (xs : List String) :
    ∀ acc : List String,
      xs.foldl setAdd acc = acc ++ (firstOccurrences xs).filter (fun y => decide (y ∉ acc)) := by
  induction xs with
  | nil => intro acc; simp [firstOccurrences]
  | cons x xs ih =>
    intro acc
    simp only [List.foldl_cons, firstOccurrences]
    rw [ih]
    by_cases h : x ∈ acc
    · have e : setAdd acc x = acc := by simp [setAdd, h]
      rw [e, List.filter_cons_of_neg (by simpa using h), List.filter_filter]
      congr 1
      apply List.filter_congr
      intro y _
      by_cases hy : y ∈ acc
      · simp [hy]
      · have : y ≠ x := fun e => hy (e ▸ h)
        simp [hy, this]
    · have e : setAdd acc x = acc ++ [x] := by simp [setAdd, h]
      rw [e, List.filter_cons_of_pos (by simpa using h), List.filter_filter]
      simp only [List.append_assoc, List.singleton_append]
      congr 2
      apply List.filter_congr
      intro y _
      by_cases hy : y ∈ acc <;> by_cases hx : y = x <;> simp [hy, hx]

/-- The set built by insertion lists each element at its first occurrence. -/
theorem arrayFromSet_eq_firstOccurrences (xs : List String) :
    arrayFromSet xs = firstOccurrences xs := by
  simp [arrayFromSet, foldl_setAdd]

theorem mem_firstOccurrences (xs : List String) (a : String) :
    a ∈ firstOccurrences xs ↔ a ∈ xs := by
  induction xs with
  | nil => simp [firstOccurrences]
  | cons x xs ih =>
    simp only [firstOccurrences, List.mem_cons, List.mem_filter, ih]
    by_cases h : a = x <;> simp [h]

theorem nodup_firstOccurrences (xs : List String) : (firstOccurrences xs).Nodup := by
  induction xs with
  | nil => simp [firstOccurrences]
  | cons x xs ih =>
    simp only [firstOccurrences, List.nodup_cons]
    exact ⟨by simp [List.mem_filter], ih.filter _⟩

theorem firstNode_cons_other (node : AstNode) (ast : List AstNode) (a : String)
    (h : nodePartial node ≠ some a) : firstNode (node :: ast) a = firstNode ast a + 1 := by
  have hb : (nodePartial node == some a) = false := by simpa using h
  simp [firstNode, List.findIdx_cons, hb]

theorem firstNode_cons_same (node : AstNode) (ast : List AstNode) (a : String)
    (h : nodePartial node = some a) : firstNode (node :: ast) a = 0 := by
  have hb : (nodePartial node == some a) = true := by simpa using h
  simp [firstNode, List.findIdx_cons, hb]

theorem pairwise_firstNode (ast : List AstNode) :
    (firstOccurrences (ast.filterMap nodePartial)).Pairwise
      (fun a b => firstNode ast a < firstNode ast b) := by
  induction ast with
  | nil => simp [firstOccurrences]
  | cons node ast ih =>
    cases hnode : nodePartial node with
    | none =>
      rw [List.filterMap_cons_none hnode]
      refine ih.imp ?_
      intro a b hab
      rw [firstNode_cons_other node ast a (by simp [hnode]),
        firstNode_cons_other node ast b (by simp [hnode])]
      omega
    | some x =>
      rw [List.filterMap_cons_some hnode]
      simp only [firstOccurrences, List.pairwise_cons]
      constructor
      · intro b hb
        have hbx : b ≠ x := by simpa using (List.mem_filter.mp hb).2
        rw [firstNode_cons_same node ast x hnode,
          firstNode_cons_other node ast b (by simp [hnode]; exact fun e => hbx e.symm)]
        omega
      · have hsub := (ih.sublist (List.filter_sublist (p := fun y => decide (y ≠ x))
          (firstOccurrences (ast.filterMap nodePartial))))
        refine hsub.imp_of_mem ?_
        intro a b ha hb hab
        have hax : a ≠ x := by simpa using (List.mem_filter.mp ha).2
        have hbx : b ≠ x := by simpa using (List.mem_filter.mp hb).2
        rw [firstNode_cons_other node ast a (by simp [hnode]; exact fun e => hax e.symm),
          firstNode_cons_other node ast b (by simp [hnode]; exact fun e => hbx e.symm)]
        omega

theorem partials_eq_firstOccurrences (ast : List AstNode) :
    partials ast = firstOccurrences (ast.filterMap nodePartial) := by
  simp [partials, arrayFromSet_eq_firstOccurrences]

theorem nodup_partials (ast : List AstNode) : (partials ast).Nodup := by
  rw [partials_eq_firstOccurrences]
  exact nodup_firstOccurrences _

theorem length_firstOccurrences_le (xs : List String) :
    (firstOccurrences xs).length ≤ xs.length := by
  induction xs with
  | nil => simp [firstOccurrences]
  | cons x xs ih =>
    simp only [firstOccurrences, List.length_cons]
    have := List.length_filter_le (fun y => decide (y ≠ x)) (firstOccurrences xs)
    omega

theorem length_partials_le (ast : List AstNode) : (partials ast).length ≤ ast.length := by
  rw [partials_eq_firstOccurrences]
  exact (length_firstOccurrences_le _).trans (List.length_filterMap_le _ _)

theorem partials_skip (pre post : List AstNode) (node : AstNode) (h : nodePartial node = none) :
    partials (pre ++ node :: post) = partials (pre ++ post) := by
  simp [partials, List.filterMap_append, List.filterMap_cons_none h]

/-! ## Lemmas on `transform` -/

theorem mapWithIndex_getElem? {α β : Type} (f : α → Nat → β) (xs : List α) :
    ∀ (start i : Nat), (mapWithIndex f start xs)[i]? = xs[i]?.map (fun x => f x (start + i)) := by
  induction xs with
  | nil => intro start i; simp [mapWithIndex]
  | cons x xs ih =>
    intro start i
    cases i with
    | zero => simp [mapWithIndex]
    | succ i =>
      simp only [mapWithIndex, List.getElem?_cons_succ, ih]
      congr 1
      funext y
      congr 1
      omega

theorem mapWithIndex_length {α β : Type} (f : α → Nat → β) (xs : List α) :
    ∀ start : Nat, (mapWithIndex f start xs).length = xs.length := by
  induction xs with
  | nil => intro start; simp [mapWithIndex]
  | cons x xs ih => intro start; simp [mapWithIndex, ih]

/-- A successful call: the module is built from the references of the tree that
are not in the registry, and the registry takes them all. -/
theorem transform_of_succeeds (p : Plugin) (r : FileRun) (h : r.Succeeds p) :
    p.transform r.code r.id =
      (.source (moduleSource p.host p.templatesDir
          ((partials r.ast).filter (fun x => decide (x ∉ p.registeredPartials)))
          (renameTemplateFn r.compiled)),
        { p with registeredPartials :=
            (unregisteredPartials (partials r.ast) p.registeredPartials).2 }) := by
  obtain ⟨h1, h2, h3, h4⟩ := h
  simp [Plugin.transform, h1, h2, h3, h4,
    unregisteredPartials_fst_of_nodup _ _ (nodup_partials r.ast)]

theorem transformAll_getElem? (runs : List FileRun) :
    ∀ (p : Plugin) (k : Nat), (∀ r ∈ runs, r.Succeeds p) →
      (p.transformAll (runs.map fun r => (r.code, r.id))).1[k]? =
        runs[k]?.map (fun r => Outcome.source (moduleSource p.host p.templatesDir
          ((partials r.ast).filter (fun x => decide (x ∉ p.registeredPartials ∧
            x ∉ ((runs.map fun r => r.ast).take k).flatMap partials)))
          (renameTemplateFn r.compiled))) := by
  induction runs with
  | nil => intro p k _; simp [Plugin.transformAll]
  | cons r runs ih =>
    intro p k hok
    have hr := transform_of_succeeds p r (hok r (by simp))
    simp only [List.map_cons, Plugin.transformAll, hr]
    cases k with
    | zero => simp
    | succ k =>
      simp only [List.getElem?_cons_succ, List.take_succ_cons, List.flatMap_cons]
      rw [ih _ k]
      · cases hk : runs[k]? with
        | none => simp
        | some q =>
          simp only [Option.map_some']
          congr 3
          apply List.filter_congr
          intro x _
          simp only [mem_unregisteredPartials_snd, List.mem_append, not_or, and_assoc]
      · intro q hq
        exact hok q (List.mem_cons_of_mem _ hq)

theorem mem_firstReferencedBy (asts : List (List AstNode)) (k : Nat) (name : String) :
    name ∈ firstReferencedBy asts k ↔
      name ∈ partials (asts.getD k []) ∧ ∀ i < k, name ∉ partials (asts.getD i []) := by
  simp only [firstReferencedBy, List.mem_filter, decide_eq_true_eq, List.mem_flatMap, not_exists,
    not_and]
  constructor
  · rintro ⟨h1, h2⟩
    refine ⟨h1, fun i hi hmem => ?_⟩
    by_cases hlen : i < asts.length
    · refine h2 (asts.getD i []) ?_ hmem
      rw [List.mem_take_iff_getElem]
      exact ⟨i, by omega, by simp [List.getD_eq_getElem?_getD, hlen]⟩
    · have : asts.getD i [] = [] := by
        simp [List.getD_eq_getElem?_getD, List.getElem?_eq_none (Nat.le_of_not_lt hlen)]
      rw [this] at hmem
      simp [partials, arrayFromSet] at hmem
  · rintro ⟨h1, h2⟩
    refine ⟨h1, fun a ha hmem => ?_⟩
    rw [List.mem_take_iff_getElem] at ha
    obtain ⟨i, hi, rfl⟩ := ha
    have hi' : i < k ∧ i < asts.length := by omega
    exact h2 i hi'.1 (by simpa [List.getD_eq_getElem?_getD, hi'.2] using hmem)

theorem exists_unique_firstReferencedBy (asts : List (List AstNode)) (name : String) (k : Nat)
    (hk : name ∈ partials (asts.getD k [])) :
    ∃ j, j ≤ k ∧ name ∈ firstReferencedBy asts j ∧
      ∀ i, name ∈ firstReferencedBy asts i → i = j := by
  have hex : ∃ j, name ∈ partials (asts.getD j []) := ⟨k, hk⟩
  refine ⟨Nat.find hex, Nat.find_min' hex hk, ?_, ?_⟩
  · rw [mem_firstReferencedBy]
    exact ⟨Nat.find_spec hex, fun i hi => Nat.find_min hex hi⟩
  · intro i hi
    rw [mem_firstReferencedBy] at hi
    rcases Nat.lt_trichotomy i (Nat.find hex) with h | h | h
    · exact absurd hi.1 (Nat.find_min hex h)
    · exact h
    · exact absurd (Nat.find_spec hex) (hi.2 _ h)

theorem replaceFirstChars_start (pat rep rest : List Char) (h : pat ≠ []) :
    replaceFirstChars pat rep (pat ++ rest) = rep ++ rest := by
  obtain ⟨c, cs, rfl⟩ := List.exists_cons_of_ne_nil h
  simp [replaceFirstChars]

/-- The text of `new Function(...)` starts with `function anonymous`, which is
what the rename replaces. -/
theorem renameTemplateFn_anonymous (rest : String) :
    renameTemplateFn ("function anonymous" ++ rest) = "export function template" ++ rest := by
  apply String.ext
  simp only [renameTemplateFn, jsReplace, String.data_append]
  rw [replaceFirstChars_start _ _ _ (by decide)]

set_option maxRecDepth 100000 in
theorem moduleSource_greeting (h : Host) (fn : String) (hwin : h.isWindows = false)
    (hresolve : h.resolve "/t/" "greeting" = "/t/greeting") :
    moduleSource h "/t/" ["greeting"] fn =
      "import \x7b config \x7d from '@@@eta-config'\nimport \x7b template as partialTemplate$0 \x7d from '/t/greeting'\n\nconfig.templates.define('greeting', partialTemplate$0)\n\n" ++
      fn ++
      "\n\nexport default function templateFunction (data) \x7b\n  return template(data, config)\n\x7d" := by
  apply String.ext
  simp only [moduleSource, partialImportStatements, partialImportLines, mapWithIndex,
    importStatement, importPath, hwin, hresolve, String.data_append, List.append_assoc,
    Bool.false_eq_true, if_false]
  rfl

theorem moduleSource_shape (h : Host) (dir : String) (names : List String) (fn : String) :
    moduleSource h dir names fn =
      configImportLine ++ "\n".intercalate (partialImportLines h dir names) ++ "\n\n" ++
        "\n".intercalate (partialDefineLines names) ++ "\n\n" ++ fn ++ defaultExportLines := by
  apply String.ext
  simp only [moduleSource, partialImportStatements, partialDefineStatements,
    String.data_append, List.append_assoc]
  rfl

theorem digitChar_value (m : Nat) (h : m < 10) : (Nat.digitChar m).toNat - 48 = m := by
  interval_cases m <;> rfl

theorem decimalValue_toDigitsCore :
    ∀ (fuel n : Nat) (ds : List Char), n < fuel →
      decimalValue (Nat.toDigitsCore 10 fuel n ds) 0 = decimalValue ds n := by
  intro fuel
  induction fuel with
  | zero => intro n ds h; omega
  | succ fuel ih =>
    intro n ds h
    have hv : (Nat.digitChar (n % 10)).toNat - 48 = n % 10 :=
      digitChar_value (n % 10) (Nat.mod_lt _ (by omega))
    simp only [Nat.toDigitsCore]
    split
    · next h0 =>
      have hn : 0 * 10 + n % 10 = n := by omega
      simp only [decimalValue, List.foldl_cons, hv, hn]
    · next h0 =>
      rw [ih (n / 10) _ (by omega)]
      have hn : n / 10 * 10 + n % 10 = n := by omega
      simp only [decimalValue, List.foldl_cons, hv, hn]

theorem decimalValue_repr (n : Nat) : decimalValue (toString n).data 0 = n := by
  have h : (toString n).data = Nat.toDigits 10 n := rfl
  rw [h, Nat.toDigits, decimalValue_toDigitsCore (n + 1) n [] (by omega)]
  rfl

theorem partialAlias_injective (i j : Nat) (h : partialAlias i = partialAlias j) : i = j := by
  have hd : (toString i).data = (toString j).data := by
    have := congrArg String.data h
    simpa [partialAlias, String.data_append] using this
  have := congrArg (fun ds => decimalValue ds 0) hd
  simpa [decimalValue_repr] using this

theorem importStatement_alias (h : Host) (dir name : String) (i : Nat) :
    importStatement h dir name i =
      "import \x7b template as " ++ partialAlias i ++ " \x7d from '" ++ importPath h dir name ++
        "'" := by
  apply String.ext
  simp only [importStatement, partialAlias, String.data_append, List.append_assoc]
  rfl

theorem defineStatement_alias (name : String) (i : Nat) :
    defineStatement name i =
      "config.templates.define('" ++ name ++ "', " ++ partialAlias i ++ ")" := by
  apply String.ext
  simp only [defineStatement, partialAlias, String.data_append, List.append_assoc]
  rfl

/-! ## Lemmas on the module text -/

theorem mapWithIndex_eq_zipWith {α β : Type} (f : α → Nat → β) (xs : List α) :
    ∀ start : Nat, mapWithIndex f start xs = List.zipWith f xs (List.range' start xs.length) := by
  induction xs with
  | nil => intro start; simp [mapWithIndex]
  | cons x xs ih => intro start; simp [mapWithIndex, ih, List.range'_succ]

theorem importLinesText_getElem? (path : String → String) (names : List String) (i : Nat) :
    (importLinesText path names)[i]? =
      names[i]?.map (fun name => importStatementText (path name) i) := by
  simp only [importLinesText, List.getElem?_zipWith]
  by_cases hi : i < names.length
  · simp [List.getElem?_range hi, List.getElem?_eq_getElem hi]
  · simp [List.getElem?_eq_none (Nat.le_of_not_lt hi)]

theorem defineLinesText_getElem? (names : List String) (i : Nat) :
    (defineLinesText names)[i]? = names[i]?.map (fun name => defineStatementText name i) := by
  simp only [defineLinesText, List.getElem?_zipWith]
  by_cases hi : i < names.length
  · simp [List.getElem?_range hi, List.getElem?_eq_getElem hi]
  · simp [List.getElem?_eq_none (Nat.le_of_not_lt hi)]

theorem digitChar_ne_dollar (m : Nat) (h : m < 10) : Nat.digitChar m ≠ '$' := by
  interval_cases m <;> decide

theorem toDigitsCore_no_dollar :
    ∀ (fuel n : Nat) (ds : List Char), '$' ∉ ds → '$' ∉ Nat.toDigitsCore 10 fuel n ds := by
  intro fuel
  induction fuel with
  | zero => intro n ds h; simpa [Nat.toDigitsCore] using h
  | succ fuel ih =>
    intro n ds h
    have hd : '$' ∉ Nat.digitChar (n % 10) :: ds := by
      simp only [List.mem_cons, not_or]
      exact ⟨fun e => digitChar_ne_dollar (n % 10) (Nat.mod_lt _ (by omega)) e.symm, h⟩
    simp only [Nat.toDigitsCore]
    split
    · exact hd
    · exact ih _ _ hd

theorem repr_no_dollar (n : Nat) : '$' ∉ (toString n).data := by
  have h : (toString n).data = Nat.toDigits 10 n := rfl
  rw [h, Nat.toDigits]
  exact toDigitsCore_no_dollar _ _ [] (by simp)

/-- A text is cut in one way only at its last `$`. -/
theorem cut_at_last_dollar :
    ∀ (a b d1 d2 : List Char), '$' ∉ d1 → '$' ∉ d2 →
      a ++ '$' :: d1 = b ++ '$' :: d2 → a = b ∧ d1 = d2 := by
  intro a
  induction a with
  | nil =>
    intro b d1 d2 h1 h2 h
    cases b with
    | nil => simpa using h
    | cons x xs =>
      simp only [List.nil_append, List.cons_append, List.cons.injEq] at h
      exact absurd (h.2 ▸ (by simp : '$' ∈ xs ++ '$' :: d2)) h1
  | cons y ys ih =>
    intro b d1 d2 h1 h2 h
    cases b with
    | nil =>
      simp only [List.nil_append, List.cons_append, List.cons.injEq] at h
      exact absurd (h.2 ▸ (by simp : '$' ∈ ys ++ '$' :: d1)) h2
    | cons x xs =>
      simp only [List.cons_append, List.cons.injEq] at h
      obtain ⟨hab, hd⟩ := ih xs d1 d2 h1 h2 h.2
      exact ⟨by rw [h.1, hab], hd⟩

theorem defineStatementText_injective (p q : String) (i j : Nat)
    (h : defineStatementText p i = defineStatementText q j) : p = q := by
  have hd := congrArg String.data h
  simp only [defineStatementText, String.data_append] at hd
  have e1 : ∀ (n : String) (k : Nat),
      "config.templates.define('".data ++ n.data ++ "', partialTemplate$".data ++
          (toString k).data ++ ")".data =
        ("config.templates.define('".data ++ n.data ++ "', partialTemplate".data) ++
          '$' :: ((toString k).data ++ [')']) := by
    intro n k
    simp [List.append_assoc]
  rw [e1, e1] at hd
  have hcut := cut_at_last_dollar _ _ _ _
    (by simp [repr_no_dollar]) (by simp [repr_no_dollar]) hd
  have h2 := List.append_cancel_right hcut.1
  exact String.ext (List.append_cancel_left h2)

/-- A name has a registration statement among the lines exactly when it is one
of the names. -/
theorem defineStatementText_mem (names : List String) (name : String) :
    (∃ i, defineStatementText name i ∈ defineLinesText names) ↔ name ∈ names := by
  constructor
  · rintro ⟨i, hi⟩
    obtain ⟨k, hk⟩ := List.mem_iff_getElem?.mp hi
    rw [defineLinesText_getElem?] at hk
    cases hn : names[k]? with
    | none => simp [hn] at hk
    | some x =>
      simp only [hn, Option.map_some', Option.some.injEq] at hk
      have := defineStatementText_injective x name k i hk
      rw [← this]
      exact List.mem_iff_getElem?.mpr ⟨k, hn⟩
  · intro hmem
    obtain ⟨k, hk⟩ := List.mem_iff_getElem?.mp hmem
    exact ⟨k, List.mem_iff_getElem?.mpr ⟨k, by rw [defineLinesText_getElem?, hk]; rfl⟩⟩

/-! ## The claims -/

/-- C1, as stated, fails: a file outside the root that the filter rejects is
answered with `undefined`, not with the out-of-root error. -/
theorem transform_outside_root_rejected_by_filter :
    jsStartsWith "/elsewhere/main.js" (etaPlugin sampleHost "/t").templatesDir = false ∧
      ((etaPlugin sampleHost "/t").transform "" "/elsewhere/main.js").1 = Outcome.undefined ∧
      ((etaPlugin sampleHost "/t").transform "" "/elsewhere/main.js").1 ≠
        Outcome.throw outOfRootMessage := by
  decide

/-- C1 (amended): for every plugin state and every file identifier that the
inclusion filter accepts and that does not start with `templatesDir`,
`transform` throws the out-of-root error and leaves the plugin as it was. -/
theorem transform_outside_root_throws (p : Plugin) (code id : String)
    (hfilter : p.host.filter id = true)
    (hroot : jsStartsWith id p.templatesDir = false) :
    p.transform code id = (Outcome.throw outOfRootMessage, p) := by
  simp [Plugin.transform, hfilter, hroot]

/-- C1 (amended), at `/elsewhere/main.eta` under the root `/t/`. -/
theorem transform_outside_root_throws_witness :
    ((etaPlugin sampleHost "/t").transform "" "/elsewhere/main.eta").1 =
      Outcome.throw outOfRootMessage :=
  congrArg Prod.fst
    (transform_outside_root_throws (etaPlugin sampleHost "/t") "" "/elsewhere/main.eta"
      (by decide) (by decide))

/-- C2: the code on a double-quoted layout call, such as `layout("base", {x:1})`:
the name is matched by group 3 while the callback returns group 2, so nothing
is extracted, whatever follows `layout("`. -/
theorem layout_double_quoted_extracts_nothing :
    partials [.obj "e" "layout(\"base\", \x7bx:1\x7d)"] = [] ∧
      partials [.obj "e" "layout(\"base\")"] = [] ∧
      partials [.obj "e" "layout('base', \x7bx:1\x7d)"] = ["base"] ∧
      ∀ rest : String, partials [.obj "e" ("layout(\"" ++ rest)] = [] := by
  refine ⟨by decide, by decide, by decide, fun rest => ?_⟩
  simp [partials, arrayFromSet, nodePartial_layout_double rest]

/-- C3, as stated, fails: an empty argument text, an argument text with a line
terminator, and an argument text with a single quote before a comma or before
the closing parenthesis do not give the reference `n`. -/
theorem layout_extra_args_not_always_ignored :
    partials [.obj "e" "layout('n')"] = ["n"] ∧
      partials [.obj "e" "layout('n',)"] = [] ∧
      partials [.obj "e" "layout('n',\x7b\n x:1 \x7d)"] = [] ∧
      partials [.obj "e" "layout('n',\x7bt:'x', y:1\x7d)"] = ["n',\x7bt:'x"] := by
  decide

/-- C3 (amended): for every non-empty name `n` without a line terminator and
every non-empty argument text `a` without a single quote and without a line
terminator, the node `layout('n',a)` gives the same reference as `layout('n')`,
namely exactly `n`. -/
theorem layout_extra_args_ignored (n a : String)
    (hn : n ≠ "") (hnl : ∀ c ∈ n.data, isLineTerminator c = false)
    (ha : a ≠ "") (haq : '\'' ∉ a.data) (hal : ∀ c ∈ a.data, isLineTerminator c = false) :
    partials [.obj "e" ("layout('" ++ n ++ "'," ++ a ++ ")")] =
        partials [.obj "e" ("layout('" ++ n ++ "')")] ∧
      partials [.obj "e" ("layout('" ++ n ++ "'," ++ a ++ ")")] = [n] := by
  simp [partials, arrayFromSet, setAdd, nodePartial_layout_single_args n a hn hnl ha haq hal,
    nodePartial_layout_single n hn hnl]

/-- C3 (amended), at `layout('base', {x:1})`. -/
theorem layout_extra_args_ignored_witness :
    partials [.obj "e" ("layout('" ++ "base" ++ "'," ++ " \x7bx:1\x7d" ++ ")")] =
        partials [.obj "e" ("layout('" ++ "base" ++ "')")] ∧
      partials [.obj "e" ("layout('" ++ "base" ++ "'," ++ " \x7bx:1\x7d" ++ ")")] = ["base"] :=
  layout_extra_args_ignored "base" " \x7bx:1\x7d" (by decide) (by decide) (by decide)
    (by decide) (by decide)

/-- C4: for every registry `S` and every duplicate-free list `ns`, the claim
step returns the elements of `ns` that are not in `S`, in their order, and the
registry afterwards holds exactly the names of `S` and of `ns`; in particular
every name of `ns` is marked seen. -/
theorem claim_postcondition (S ns : List String) (hnd : ns.Nodup) :
    (unregisteredPartials ns S).1 = ns.filter (fun x => decide (x ∉ S)) ∧
      (∀ x, x ∈ (unregisteredPartials ns S).2 ↔ x ∈ S ∨ x ∈ ns) ∧
      (∀ x ∈ ns, x ∈ (unregisteredPartials ns S).2) :=
  ⟨unregisteredPartials_fst_of_nodup ns S hnd, mem_unregisteredPartials_snd ns S,
    fun x hx => (mem_unregisteredPartials_snd ns S x).mpr (Or.inr hx)⟩

/-- C4, at the registry `{footer}` and the names `header, footer, nav`. -/
theorem claim_postcondition_witness :
    (unregisteredPartials ["header", "footer", "nav"] ["footer"]).1 = ["header", "nav"] ∧
      (unregisteredPartials ["header", "footer", "nav"] ["footer"]).2 =
        ["footer", "header", "nav"] :=
  ⟨(claim_postcondition ["footer"] ["header", "footer", "nav"] (by decide)).1.trans (by decide),
    by decide⟩

/-- C5: claiming `ns` twice in a row returns the empty list the second time, and
a name returned by one claim is returned by no later claim on the same registry,
whatever claims happen in between. -/
theorem claim_idempotent (S ns : List String) :
    (unregisteredPartials ns (unregisteredPartials ns S).2).1 = [] ∧
      ∀ (between : List (List String)) (ms : List String) (x : String),
        x ∈ (unregisteredPartials ns S).1 →
          x ∉ (unregisteredPartials ms
            (registryAfter (unregisteredPartials ns S).2 between)).1 := by
  constructor
  · rw [unregisteredPartials_of_subset ns _
      (fun x hx => (mem_unregisteredPartials_snd ns S x).mpr (Or.inr hx))]
  · intro between ms x hx hlater
    have hin : x ∈ (unregisteredPartials ns S).2 :=
      (mem_unregisteredPartials_snd ns S x).mpr (Or.inr (mem_unregisteredPartials_fst ns S x hx).1)
    exact (mem_unregisteredPartials_fst ms _ x hlater).2
      (subset_registryAfter between _ x hin)

/-- C5, at the claims `header, nav`, then `footer`, then `nav, header, aside`. -/
theorem claim_idempotent_witness :
    "nav" ∈ (unregisteredPartials ["header", "nav"] []).1 ∧
      "nav" ∉ (unregisteredPartials ["nav", "header", "aside"]
        (registryAfter (unregisteredPartials ["header", "nav"] []).2 [["footer"]])).1 :=
  ⟨by decide,
    (claim_idempotent [] ["header", "nav"]).2 [["footer"]] ["nav", "header", "aside"] "nav"
      (by decide)⟩

/-- C6: in a sequence of successful `transform` calls on a fresh plugin, the
text of module `k` is the config import, one import statement and one define
statement for each name that file `k` references and no earlier file does, the
render function and the default export.  So a name has a define statement in
module `j` exactly when file `j` is the first to reference it, and then it has
an import statement there as well; each referenced name is emitted by exactly
one module. -/
theorem import_at_most_once (h : Host) (dir : String) (runs : List FileRun)
    (hok : ∀ r ∈ runs, r.Succeeds (etaPlugin h dir)) :
    (∀ k, ((etaPlugin h dir).transformAll (runs.map fun r => (r.code, r.id))).1[k]? =
        runs[k]?.map (fun r => Outcome.source
          (moduleText (resolvedPath h (etaPlugin h dir).templatesDir)
            (firstReferencedBy (runs.map fun r => r.ast) k) (renameTemplateFn r.compiled)))) ∧
      (∀ name j,
        (∃ i, defineStatementText name i ∈
            defineLinesText (firstReferencedBy (runs.map fun r => r.ast) j)) ↔
          name ∈ partials ((runs.map fun r => r.ast).getD j []) ∧
            ∀ i < j, name ∉ partials ((runs.map fun r => r.ast).getD i [])) ∧
      (∀ name j, name ∈ firstReferencedBy (runs.map fun r => r.ast) j →
        ∃ i, importStatementText (resolvedPath h (etaPlugin h dir).templatesDir name) i ∈
          importLinesText (resolvedPath h (etaPlugin h dir).templatesDir)
            (firstReferencedBy (runs.map fun r => r.ast) j)) ∧
      (∀ name k, name ∈ partials ((runs.map fun r => r.ast).getD k []) →
        ∃ j, j ≤ k ∧
          (∃ i, defineStatementText name i ∈
            defineLinesText (firstReferencedBy (runs.map fun r => r.ast) j)) ∧
          ∀ j', (∃ i, defineStatementText name i ∈
            defineLinesText (firstReferencedBy (runs.map fun r => r.ast) j')) → j' = j) := by
  have htext : ∀ (d : String) (names : List String) (fn : String),
      moduleSource h d names fn = moduleText (resolvedPath h d) names fn := by
    intro d names fn
    have himp : partialImportLines h d names = importLinesText (resolvedPath h d) names := by
      rw [partialImportLines, mapWithIndex_eq_zipWith, importLinesText, List.range_eq_range']
      rfl
    have hdef : partialDefineLines names = defineLinesText names := by
      rw [partialDefineLines, mapWithIndex_eq_zipWith, defineLinesText, List.range_eq_range']
      rfl
    apply String.ext
    simp only [moduleSource, moduleText, partialImportStatements, partialDefineStatements,
      himp, hdef, String.data_append, List.append_assoc]
    rfl
  refine ⟨fun k => ?_, fun name j => ?_, fun name j hmem => ?_, fun name k hk => ?_⟩
  · rw [transformAll_getElem? runs (etaPlugin h dir) k hok]
    cases hk : runs[k]? with
    | none => rfl
    | some r => simp [firstReferencedBy, hk, etaPlugin, htext]
  · rw [defineStatementText_mem, mem_firstReferencedBy]
  · obtain ⟨i, hi⟩ := List.mem_iff_getElem?.mp hmem
    exact ⟨i, List.mem_iff_getElem?.mpr ⟨i, by rw [importLinesText_getElem?, hi]; rfl⟩⟩
  · obtain ⟨j, hj, hmem, huniq⟩ := exists_unique_firstReferencedBy _ name k hk
    exact ⟨j, hj, (defineStatementText_mem _ name).mpr hmem,
      fun j' hj' => huniq j' ((defineStatementText_mem _ name).mp hj')⟩

theorem headerRuns_succeed : ∀ r ∈ headerRuns, r.Succeeds (etaPlugin sampleHost "/t") := by
  intro r hr
  simp only [headerRuns, List.mem_cons, List.mem_singleton, List.not_mem_nil, or_false] at hr
  rcases hr with rfl | rfl <;> exact ⟨by decide, by decide, rfl, rfl⟩

set_option maxRecDepth 100000 in
/-- C6, at two files that both include `header`: the text of the first module
has the import and the define statement of `header`, the text of the second has
no import of a partial and no define statement. -/
theorem import_at_most_once_witness :
    ((etaPlugin sampleHost "/t").transformAll
        (headerRuns.map fun r => (r.code, r.id))).1[0]? =
      some (Outcome.source "import \x7b config \x7d from '@@@eta-config'\nimport \x7b template as partialTemplate$0 \x7d from '/t/header'\n\nconfig.templates.define('header', partialTemplate$0)\n\nexport function template(it,E,cb\n) \x7b\nreturn tR\n\x7d\n\nexport default function templateFunction (data) \x7b\n  return template(data, config)\n\x7d") ∧
      ((etaPlugin sampleHost "/t").transformAll
        (headerRuns.map fun r => (r.code, r.id))).1 =
      [Outcome.source "import \x7b config \x7d from '@@@eta-config'\nimport \x7b template as partialTemplate$0 \x7d from '/t/header'\n\nconfig.templates.define('header', partialTemplate$0)\n\nexport function template(it,E,cb\n) \x7b\nreturn tR\n\x7d\n\nexport default function templateFunction (data) \x7b\n  return template(data, config)\n\x7d",
        Outcome.source "import \x7b config \x7d from '@@@eta-config'\n\n\n\n\nexport function template(it,E,cb\n) \x7b\nreturn tR\n\x7d\n\nexport default function templateFunction (data) \x7b\n  return template(data, config)\n\x7d"] ∧
      occursIn "import \x7b template as partialTemplate$0 \x7d from '/t/header'"
        ((((etaPlugin sampleHost "/t").transformAll
          (headerRuns.map fun r => (r.code, r.id))).1.getD 0 Outcome.undefined).text) = true ∧
      occursIn "config.templates.define('header', partialTemplate$0)"
        ((((etaPlugin sampleHost "/t").transformAll
          (headerRuns.map fun r => (r.code, r.id))).1.getD 0 Outcome.undefined).text) = true ∧
      occursIn "import \x7b template as"
        ((((etaPlugin sampleHost "/t").transformAll
          (headerRuns.map fun r => (r.code, r.id))).1.getD 1 Outcome.undefined).text) = false ∧
      occursIn "config.templates.define("
        ((((etaPlugin sampleHost "/t").transformAll
          (headerRuns.map fun r => (r.code, r.id))).1.getD 1 Outcome.undefined).text) = false :=
  ⟨((import_at_most_once sampleHost "/t" headerRuns headerRuns_succeed).1 0).trans (by decide),
    by decide, by decide, by decide, by decide, by decide⟩

theorem greetingRun_succeeds : greetingRun.Succeeds (etaPlugin sampleHost "/t") :=
  ⟨by decide, by decide, rfl, rfl⟩

theorem orderRun_succeeds : orderRun.Succeeds orderPlugin :=
  ⟨by decide, by decide, rfl, rfl⟩

/-- C7: for every tree and every registry, the text of the module of a
successful `transform` is the config import, the import statements, the define
statements, the render function and the default export, where the `i`-th import
statement and the `i`-th define statement are those of the `i`-th reference of
the tree in first-occurrence order that is not yet in the registry; with an
empty registry these are all the references in first-occurrence order. -/
theorem statement_order_stable (p : Plugin) (r : FileRun) (hs : r.Succeeds p) :
    (p.transform r.code r.id).1 =
        Outcome.source (moduleText (resolvedPath p.host p.templatesDir)
          (newReferences r.ast p.registeredPartials) (renameTemplateFn r.compiled)) ∧
      (∀ i : Nat, (importLinesText (resolvedPath p.host p.templatesDir)
            (newReferences r.ast p.registeredPartials))[i]? =
          (newReferences r.ast p.registeredPartials)[i]?.map (fun name =>
            "import \x7b template as partialTemplate$" ++ toString i ++ " \x7d from '" ++
              resolvedPath p.host p.templatesDir name ++ "'")) ∧
      (∀ i : Nat, (defineLinesText (newReferences r.ast p.registeredPartials))[i]? =
          (newReferences r.ast p.registeredPartials)[i]?.map (fun name =>
            "config.templates.define('" ++ name ++ "', partialTemplate$" ++ toString i ++ ")")) ∧
      newReferences r.ast [] = firstOccurrences (r.ast.filterMap nodePartial) := by
  have htext : ∀ (names : List String) (fn : String),
      moduleSource p.host p.templatesDir names fn =
        moduleText (resolvedPath p.host p.templatesDir) names fn := by
    intro names fn
    have himp : partialImportLines p.host p.templatesDir names =
        importLinesText (resolvedPath p.host p.templatesDir) names := by
      rw [partialImportLines, mapWithIndex_eq_zipWith, importLinesText, List.range_eq_range']
      rfl
    have hdef : partialDefineLines names = defineLinesText names := by
      rw [partialDefineLines, mapWithIndex_eq_zipWith, defineLinesText, List.range_eq_range']
      rfl
    apply String.ext
    simp only [moduleSource, moduleText, partialImportStatements, partialDefineStatements,
      himp, hdef, String.data_append, List.append_assoc]
    rfl
  refine ⟨?_, fun i => ?_, fun i => ?_, ?_⟩
  · rw [transform_of_succeeds p r hs, newReferences, partials_eq_firstOccurrences, htext]
  · rw [importLinesText_getElem?]; rfl
  · rw [defineLinesText_getElem?]; rfl
  · simp [newReferences]

set_option maxRecDepth 100000 in
/-- C7, at the tree `b, a, b, c`: with `a` already registered the statements are
those of `b` and `c`, in this order; with an empty registry those of `b`, `a`
and `c`; with `c` already registered those of `b` and `a`. -/
theorem statement_order_stable_witness :
    (orderPlugin.transform orderRun.code orderRun.id).1 =
      Outcome.source "import \x7b config \x7d from '@@@eta-config'\nimport \x7b template as partialTemplate$0 \x7d from '/t/b'\nimport \x7b template as partialTemplate$1 \x7d from '/t/c'\n\nconfig.templates.define('b', partialTemplate$0)\nconfig.templates.define('c', partialTemplate$1)\n\nexport function template(it,E,cb\n) \x7b\nreturn tR\n\x7d\n\nexport default function templateFunction (data) \x7b\n  return template(data, config)\n\x7d" ∧
      ((etaPlugin orderHost "/t").transform orderRun.code orderRun.id).1 =
      Outcome.source "import \x7b config \x7d from '@@@eta-config'\nimport \x7b template as partialTemplate$0 \x7d from '/t/b'\nimport \x7b template as partialTemplate$1 \x7d from '/t/a'\nimport \x7b template as partialTemplate$2 \x7d from '/t/c'\n\nconfig.templates.define('b', partialTemplate$0)\nconfig.templates.define('a', partialTemplate$1)\nconfig.templates.define('c', partialTemplate$2)\n\nexport function template(it,E,cb\n) \x7b\nreturn tR\n\x7d\n\nexport default function templateFunction (data) \x7b\n  return template(data, config)\n\x7d" ∧
      (({ etaPlugin orderHost "/t" with registeredPartials := ["c"] } : Plugin).transform
        orderRun.code orderRun.id).1 =
      Outcome.source "import \x7b config \x7d from '@@@eta-config'\nimport \x7b template as partialTemplate$0 \x7d from '/t/b'\nimport \x7b template as partialTemplate$1 \x7d from '/t/a'\n\nconfig.templates.define('b', partialTemplate$0)\nconfig.templates.define('a', partialTemplate$1)\n\nexport function template(it,E,cb\n) \x7b\nreturn tR\n\x7d\n\nexport default function templateFunction (data) \x7b\n  return template(data, config)\n\x7d" :=
  ⟨((statement_order_stable orderPlugin orderRun orderRun_succeeds).1).trans (by decide),
    by decide, by decide⟩

/-- C8: the extracted list has no duplicates, holds exactly the names yielded
by at least one node, and is ordered by the position of the first node that
yields each name. -/
theorem partials_dedup (ast : List AstNode) :
    (partials ast).Nodup ∧
      (∀ x, x ∈ partials ast ↔ ∃ node ∈ ast, nodePartial node = some x) ∧
      (partials ast).Pairwise (fun a b => firstNode ast a < firstNode ast b) := by
  rw [partials_eq_firstOccurrences]
  refine ⟨nodup_firstOccurrences _, ?_, pairwise_firstNode ast⟩
  intro x
  rw [mem_firstOccurrences, List.mem_filterMap]

/-- C9: for the tree `Hello `, `E.include('greeting')` under the root `/t/`, with
an empty registry on a POSIX platform where `path.resolve('/t/', 'greeting')`
is `/t/greeting`, the module text is the config import, the import of
`partialTemplate$0` from `/t/greeting`, the define of `greeting`, the renamed
function and the default export; and every successful call gives the fixed
shape with one import line and one define line per claimed name. -/
theorem end_to_end_module (p : Plugin) (r : FileRun) (hs : r.Succeeds p)
    (hast : r.ast = [.str "Hello ", .obj "r" "E.include('greeting')"])
    (hdir : p.templatesDir = "/t/") (hreg : p.registeredPartials = [])
    (hwin : p.host.isWindows = false)
    (hresolve : p.host.resolve "/t/" "greeting" = "/t/greeting") :
    (p.transform r.code r.id).1 = Outcome.source (
        "import \x7b config \x7d from '@@@eta-config'\nimport \x7b template as partialTemplate$0 \x7d from '/t/greeting'\n\nconfig.templates.define('greeting', partialTemplate$0)\n\n" ++
        renameTemplateFn r.compiled ++
        "\n\nexport default function templateFunction (data) \x7b\n  return template(data, config)\n\x7d") ∧
      (∀ rest, renameTemplateFn ("function anonymous" ++ rest) =
        "export function template" ++ rest) ∧
      (∀ (q : Plugin) (s : FileRun), s.Succeeds q →
        (q.transform s.code s.id).1 = Outcome.source (
          configImportLine ++
          "\n".intercalate (partialImportLines q.host q.templatesDir
            (unregisteredPartials (partials s.ast) q.registeredPartials).1) ++ "\n\n" ++
          "\n".intercalate (partialDefineLines
            (unregisteredPartials (partials s.ast) q.registeredPartials).1) ++ "\n\n" ++
          renameTemplateFn s.compiled ++ defaultExportLines) ∧
        (partialImportLines q.host q.templatesDir
            (unregisteredPartials (partials s.ast) q.registeredPartials).1).length =
          (unregisteredPartials (partials s.ast) q.registeredPartials).1.length ∧
        (partialDefineLines
            (unregisteredPartials (partials s.ast) q.registeredPartials).1).length =
          (unregisteredPartials (partials s.ast) q.registeredPartials).1.length) := by
  refine ⟨?_, renameTemplateFn_anonymous, ?_⟩
  · have hnames : (partials r.ast).filter (fun x => decide (x ∉ p.registeredPartials)) =
        ["greeting"] := by
      rw [hast, hreg]; decide
    rw [transform_of_succeeds p r hs, hnames, hdir, moduleSource_greeting p.host _ hwin hresolve]
  · intro q s hq
    obtain ⟨h1, h2, h3, h4⟩ := hq
    refine ⟨?_, mapWithIndex_length _ _ _, mapWithIndex_length _ _ _⟩
    simp [Plugin.transform, h1, h2, h3, h4, moduleSource_shape]

/-- C9, at the file `Hello <%~ E.include('greeting') %>` as `sampleHost` reads it. -/
theorem end_to_end_module_witness :
    ((etaPlugin sampleHost "/t").transform greetingRun.code greetingRun.id).1 =
      Outcome.source (
        "import \x7b config \x7d from '@@@eta-config'\nimport \x7b template as partialTemplate$0 \x7d from '/t/greeting'\n\nconfig.templates.define('greeting', partialTemplate$0)\n\n" ++
        renameTemplateFn greetingRun.compiled ++
        "\n\nexport default function templateFunction (data) \x7b\n  return template(data, config)\n\x7d") :=
  (end_to_end_module (etaPlugin sampleHost "/t") greetingRun greetingRun_succeeds rfl
    (by decide) rfl rfl rfl).1

/-- C10: the normalized root is `r` when `r` ends with the separator `s` and
`r ++ s` otherwise; it always ends with `s`, normalizing twice is normalizing
once, and `etaPlugin` stores the root normalized for the platform separator. -/
theorem normalizeTemplatesDir_spec (r s : String) :
    (jsEndsWith r s = true → normalizeTemplatesDir r s = r) ∧
      (jsEndsWith r s = false → normalizeTemplatesDir r s = r ++ s) ∧
      jsEndsWith (normalizeTemplatesDir r s) s = true ∧
      normalizeTemplatesDir (normalizeTemplatesDir r s) s = normalizeTemplatesDir r s ∧
      (∀ h : Host, (etaPlugin h r).templatesDir =
        normalizeTemplatesDir r (pathSeparators h.isWindows)) := by
  have hends : jsEndsWith (normalizeTemplatesDir r s) s = true := by
    by_cases h : jsEndsWith r s = true
    · simp [normalizeTemplatesDir, h]
    · simp only [normalizeTemplatesDir, h]
      simp [jsEndsWith, String.data_append]
  refine ⟨fun h => by simp [normalizeTemplatesDir, h],
    fun h => by simp [normalizeTemplatesDir, h], hends, ?_, fun _ => rfl⟩
  rw [normalizeTemplatesDir, if_pos hends]

/-- C10, at the roots `/t` and `/t/` with the separator `/`. -/
theorem normalizeTemplatesDir_spec_witness :
    normalizeTemplatesDir "/t" "/" = "/t" ++ "/" ∧ normalizeTemplatesDir "/t/" "/" = "/t/" :=
  ⟨(normalizeTemplatesDir_spec "/t" "/").2.1 (by decide),
    (normalizeTemplatesDir_spec "/t/" "/").1 (by decide)⟩

/-- C11: a node with any tag whose code has no quote character (neither `'`
nor `"`) yields no reference: alone it gives the empty list, and inside a tree
it can be left out. -/
theorem no_quote_no_reference (t val : String)
    (h : ∀ c ∈ val.data, c ≠ '\'' ∧ c ≠ '"') :
    nodePartial (.obj t val) = none ∧ partials [.obj t val] = [] ∧
      ∀ pre post, partials (pre ++ .obj t val :: post) = partials (pre ++ post) := by
  have hq : ∀ c ∈ val.data, isQuote c = false := by
    intro c hc
    simp [isQuote, (h c hc).1, (h c hc).2]
  have hnone := nodePartial_of_no_quote t val hq
  exact ⟨hnone, partials_skip [] [] _ hnone, fun pre post => partials_skip pre post _ hnone⟩

/-- C11, at `include(someVariable)` in a raw node and `E.include(someVariable)`
in tagged nodes `r` and `e`. -/
theorem no_quote_no_reference_witness :
    partials [.obj "r" "include(someVariable)"] = [] ∧
      partials [.obj "r" "E.include(someVariable)"] = [] ∧
      partials [.obj "e" "E.include(someVariable)"] = [] :=
  ⟨(no_quote_no_reference "r" "include(someVariable)" (by decide)).2.1,
    (no_quote_no_reference "r" "E.include(someVariable)" (by decide)).2.1,
    (no_quote_no_reference "e" "E.include(someVariable)" (by decide)).2.1⟩

/-- C12: for a file identifier the filter rejects, `transform` answers
`undefined` and leaves the plugin, registry included, as it was; the answer is
the same whatever the frontend is, also one that would throw. -/
theorem transform_rejected_by_filter (p : Plugin) (code id : String)
    (hfilter : p.host.filter id = false) :
    p.transform code id = (Outcome.undefined, p) ∧
      (p.transform code id).2.registeredPartials = p.registeredPartials ∧
      ∀ (parse : String → Except String (List AstNode))
        (compile : String → Except String String),
        ({ p with host := { p.host with parse := parse, compile := compile } }.transform
          code id).1 = Outcome.undefined := by
  refine ⟨?_, ?_, fun parse compile => ?_⟩ <;> simp [Plugin.transform, hfilter]

/-- C12, at `/t/main.js` with the default filter `**.eta`. -/
theorem transform_rejected_by_filter_witness :
    (etaPlugin sampleHost "/t").transform "" "/t/main.js" =
      (Outcome.undefined, etaPlugin sampleHost "/t") :=
  (transform_rejected_by_filter (etaPlugin sampleHost "/t") "" "/t/main.js" (by decide)).1

/-- C13: for a file identifier the filter accepts, an identifier that does not
start with `templatesDir` makes `transform` throw the out-of-root error, with no
module text and the plugin unchanged; and when the frontend succeeds, the
out-of-root error is thrown exactly for such identifiers. -/
theorem out_of_root_iff (p : Plugin) (code id : String)
    (hfilter : p.host.filter id = true) :
    (jsStartsWith id p.templatesDir = false →
        (p.transform code id).1 = Outcome.throw outOfRootMessage ∧
        (∀ text, (p.transform code id).1 ≠ Outcome.source text) ∧
        (p.transform code id).2 = p) ∧
      (∀ ast compiled, p.host.parse code = .ok ast → p.host.compile code = .ok compiled →
        ((p.transform code id).1 = Outcome.throw outOfRootMessage ↔
          jsStartsWith id p.templatesDir = false)) ∧
      outOfRootMessage = "can not use template outside `templatesDir`" := by
  refine ⟨fun hroot => ?_, fun ast compiled hparse hcompile => ?_, rfl⟩
  · simp [Plugin.transform, hfilter, hroot]
  · cases hroot : jsStartsWith id p.templatesDir <;>
      simp [Plugin.transform, hfilter, hroot, hparse, hcompile]

/-- C13, at `/elsewhere/main.eta` and `/t/hello.eta` under the root `/t/`. -/
theorem out_of_root_iff_witness :
    ((etaPlugin sampleHost "/t").transform "" "/elsewhere/main.eta").1 =
        Outcome.throw outOfRootMessage ∧
      ((etaPlugin sampleHost "/t").transform "" "/t/hello.eta").1 ≠
        Outcome.throw outOfRootMessage :=
  ⟨((out_of_root_iff (etaPlugin sampleHost "/t") "" "/elsewhere/main.eta" (by decide)).1
      (by decide)).1,
    fun hthrow => absurd
      (((out_of_root_iff (etaPlugin sampleHost "/t") "" "/t/hello.eta" (by decide)).2.1
        _ _ rfl rfl).mp hthrow) (by decide)⟩

/-- C14: the extractor is total and gives at most one name per node; a string
node yields no reference, and neither does the raw node `E.include('')`; both
can be left out of a tree. -/
theorem silent_discard (ast : List AstNode) :
    (∃ names, partials ast = names ∧ names.length ≤ ast.length) ∧
      (∀ text, nodePartial (.str text) = none) ∧
      nodePartial (.obj "r" "E.include('')") = none ∧
      (∀ pre post text, partials (pre ++ .str text :: post) = partials (pre ++ post)) ∧
      (∀ pre post,
        partials (pre ++ .obj "r" "E.include('')" :: post) = partials (pre ++ post)) :=
  ⟨⟨partials ast, rfl, length_partials_le ast⟩, fun _ => rfl, by decide,
    fun pre post _ => partials_skip pre post _ rfl,
    fun pre post => partials_skip pre post _ (by decide)⟩

/-- C15: the code at `E.include('a') + E.include('b')`: the greedy `(.*)` runs
to the last `')` of the line, so the recorded reference is
`a') + E.include('b` and not `a`.  The name alone is recorded when no single
quote follows the call. -/
theorem include_capture_is_greedy :
    partials [.obj "r" "E.include('a') + E.include('b')"] = ["a') + E.include('b"] ∧
      partials [.obj "r" "E.include('a') + foo('b')"] = ["a') + foo('b"] ∧
      partials [.obj "r" "E.include('a')"] = ["a"] ∧
      ∀ n post : String, n ≠ "" → (∀ c ∈ n.data, isLineTerminator c = false) →
        '\'' ∉ post.data →
        partials [.obj "r" ("E.include('" ++ n ++ "')" ++ post)] = [n] := by
  refine ⟨by decide, by decide, by decide, fun n post hn hnl hpost => ?_⟩
  simp [partials, arrayFromSet, setAdd, nodePartial_include_single n post hn hnl hpost]

/-- C16: the import lines and the define lines are as many as the names; the
`i`-th import binds `partialTemplate$i` to the path of the `i`-th name, the
`i`-th define registers the `i`-th name with `partialTemplate$i`; different
indices give different aliases; and the module of a successful call is made of
these lines for the newly claimed names. -/
theorem alias_pairing (h : Host) (dir : String) (names : List String) :
    (partialImportLines h dir names).length = names.length ∧
      (partialDefineLines names).length = names.length ∧
      (∀ i, (partialImportLines h dir names)[i]? = names[i]?.map (fun name =>
        "import \x7b template as " ++ partialAlias i ++ " \x7d from '" ++
          importPath h dir name ++ "'")) ∧
      (∀ i, (partialDefineLines names)[i]? = names[i]?.map (fun name =>
        "config.templates.define('" ++ name ++ "', " ++ partialAlias i ++ ")")) ∧
      (∀ i j, partialAlias i = partialAlias j → i = j) ∧
      (∀ (p : Plugin) (r : FileRun), r.Succeeds p →
        (p.transform r.code r.id).1 = Outcome.source (
          configImportLine ++
          "\n".intercalate (partialImportLines p.host p.templatesDir
            (unregisteredPartials (partials r.ast) p.registeredPartials).1) ++ "\n\n" ++
          "\n".intercalate (partialDefineLines
            (unregisteredPartials (partials r.ast) p.registeredPartials).1) ++ "\n\n" ++
          renameTemplateFn r.compiled ++ defaultExportLines)) := by
  refine ⟨mapWithIndex_length _ _ _, mapWithIndex_length _ _ _, fun i => ?_, fun i => ?_,
    partialAlias_injective, fun p r hs => ?_⟩
  · simp [partialImportLines, mapWithIndex_getElem?, importStatement_alias]
  · simp [partialDefineLines, mapWithIndex_getElem?, defineStatement_alias]
  · obtain ⟨h1, h2, h3, h4⟩ := hs
    simp [Plugin.transform, h1, h2, h3, h4, moduleSource_shape]

theorem greetingRun_succeeds_strict : greetingRun.Succeeds (etaPlugin strictHost "/t") :=
  ⟨by decide, by decide, rfl, rfl⟩

/-- C17: a call of `transform` that throws leaves the plugin, registry
included, as it was; so the next successful call builds its module from every
name it references that was not registered before the failing call. -/
theorem registry_unchanged_on_throw (p : Plugin) (code id message : String)
    (hthrow : (p.transform code id).1 = Outcome.throw message) :
    (p.transform code id).2 = p ∧
      (p.transform code id).2.registeredPartials = p.registeredPartials ∧
      ∀ r : FileRun, r.Succeeds p →
        ((p.transform code id).2.transform r.code r.id).1 =
          Outcome.source (moduleSource p.host p.templatesDir
            ((partials r.ast).filter (fun x => decide (x ∉ p.registeredPartials)))
            (renameTemplateFn r.compiled)) := by
  have hsame : (p.transform code id).2 = p := by
    cases hf : p.host.filter id with
    | false => simp [Plugin.transform, hf]
    | true =>
      cases hr : jsStartsWith id p.templatesDir with
      | false => simp [Plugin.transform, hf, hr]
      | true =>
        cases hp : p.host.parse code with
        | error e => simp [Plugin.transform, hf, hr, hp]
        | ok ast =>
          cases hc : p.host.compile code with
          | error e => simp [Plugin.transform, hf, hr, hp, hc]
          | ok compiled => simp [Plugin.transform, hf, hr, hp, hc] at hthrow
  refine ⟨hsame, by rw [hsame], fun r hs => ?_⟩
  rw [hsame, transform_of_succeeds p r hs]

/-- C17, at a file with an unclosed tag that includes `greeting`, followed by a
file that includes `greeting`. -/
theorem registry_unchanged_on_throw_witness :
    ((etaPlugin strictHost "/t").transform "Hello <%~ E.include('greeting')" "/t/bad.eta").1 =
        Outcome.throw "unclosed tag" ∧
      ((etaPlugin strictHost "/t").transform "Hello <%~ E.include('greeting')"
        "/t/bad.eta").2.registeredPartials = [] ∧
      (((etaPlugin strictHost "/t").transform "Hello <%~ E.include('greeting')"
        "/t/bad.eta").2.transform greetingRun.code greetingRun.id).1 =
        Outcome.source (moduleSource strictHost "/t/" ["greeting"]
          (renameTemplateFn greetingRun.compiled)) :=
  ⟨by decide,
    (registry_unchanged_on_throw (etaPlugin strictHost "/t") "Hello <%~ E.include('greeting')"
      "/t/bad.eta" "unclosed tag" (by decide)).2.1,
    (registry_unchanged_on_throw (etaPlugin strictHost "/t") "Hello <%~ E.include('greeting')"
      "/t/bad.eta" "unclosed tag" (by decide)).2.2 greetingRun greetingRun_succeeds_strict⟩

end EtaPlugin
